import Mathlib

/-!
Verification development for the marketing-campaign analysis pipeline
(data cleaner, ROI calculator, customer segmentation).

The Python source operates on pandas DataFrames.  We embed the relevant
functions shallowly:

* numeric cell values are rationals (`ℚ`); quantities that pandas would
  compute by floating-point arithmetic are computed exactly, and claims
  stated "within floating tolerance" become exact statements over `ℚ`;
* a numeric column is a `List ℚ` (or `List (Option ℚ)` where missing
  values matter); a table is either a list of typed records or a list of
  named columns, whichever representation is closest to how the claim
  reads the code;
* pandas operations that raise are embedded with `Except String`;
  IEEE division by zero (which pandas propagates as `inf`/`nan` without
  raising) is embedded by the extended value type `PVal`.
-/

namespace Marketing

/-- pandas `drop_duplicates` keeps the first occurrence of each row and
preserves order; `dropDupGo seen l` drops elements of `l` already seen. -/
def dropDupGo {α : Type} [DecidableEq α] (seen : List α) : List α → List α
  | [] => []
  | x :: xs => if x ∈ seen then dropDupGo seen xs else x :: dropDupGo (x :: seen) xs

/-- Embedding of `DataFrame.drop_duplicates()` (first occurrence kept). -/
def dropDup {α : Type} [DecidableEq α] (l : List α) : List α := dropDupGo [] l

theorem mem_dropDupGo {α : Type} [DecidableEq α] {x : α} :
    ∀ (seen l : List α), x ∈ dropDupGo seen l ↔ x ∈ l ∧ x ∉ seen := by
  intro seen l
  induction l generalizing seen with
  | nil => simp [dropDupGo]
  | cons y ys ih =>
    by_cases hy : y ∈ seen
    · rw [dropDupGo, if_pos hy, ih]
      simp only [List.mem_cons]
      constructor
      · rintro ⟨h1, h2⟩; exact ⟨Or.inr h1, h2⟩
      · rintro ⟨h1 | h1, h2⟩
        · exact absurd hy (h1 ▸ h2)
        · exact ⟨h1, h2⟩
    · rw [dropDupGo, if_neg hy]
      simp only [List.mem_cons, ih, List.mem_cons]
      push_neg
      constructor
      · rintro (rfl | ⟨h1, h2, h3⟩)
        · exact ⟨Or.inl rfl, hy⟩
        · exact ⟨Or.inr h1, h3⟩
      · rintro ⟨rfl | h1, h2⟩
        · exact Or.inl rfl
        · by_cases hxy : x = y
          · exact Or.inl hxy
          · exact Or.inr ⟨h1, hxy, h2⟩

theorem mem_dropDup {α : Type} [DecidableEq α] {x : α} {l : List α} :
    x ∈ dropDup l ↔ x ∈ l := by
  simp [dropDup, mem_dropDupGo]

/-! ## Sorting (for order statistics) -/

/-- Insert into an ascending-sorted list. -/
def insertLe {α : Type} [LinearOrder α] (x : α) : List α → List α
  | [] => [x]
  | y :: ys => if x ≤ y then x :: y :: ys else y :: insertLe x ys

/-- Ascending insertion sort; pandas sorts values ascending before taking
order statistics, and `groupby` emits its keys in ascending order. -/
def sortLe {α : Type} [LinearOrder α] : List α → List α
  | [] => []
  | x :: xs => insertLe x (sortLe xs)

theorem insertLe_eq {α : Type} [LinearOrder α] (x : α) (l : List α) :
    insertLe x l = List.orderedInsert (· ≤ ·) x l := by
  induction l with
  | nil => rfl
  | cons y ys ih => by_cases h : x ≤ y <;> simp [insertLe, List.orderedInsert, h, ih]

theorem sortLe_eq {α : Type} [LinearOrder α] (l : List α) :
    sortLe l = List.insertionSort (· ≤ ·) l := by
  induction l with
  | nil => rfl
  | cons x xs ih => simp [sortLe, List.insertionSort, ih, insertLe_eq]

theorem sortLe_sorted {α : Type} [LinearOrder α] (l : List α) :
    (sortLe l).Sorted (· ≤ ·) := by
  rw [sortLe_eq]; exact List.sorted_insertionSort _ l

theorem sortLe_perm {α : Type} [LinearOrder α] (l : List α) :
    List.Perm (sortLe l) l := by
  rw [sortLe_eq]; exact List.perm_insertionSort _ l

theorem sortLe_length {α : Type} [LinearOrder α] (l : List α) :
    (sortLe l).length = l.length :=
  (sortLe_perm l).length_eq

theorem mem_sortLe {α : Type} [LinearOrder α] {x : α} {l : List α} :
    x ∈ sortLe l ↔ x ∈ l :=
  (sortLe_perm l).mem_iff

/-- `sortQ` is `sortLe` at `ℚ` (the instance used by quantiles). -/
def sortQ (l : List ℚ) : List ℚ := sortLe l

theorem sortQ_sorted (l : List ℚ) : (sortQ l).Sorted (· ≤ ·) := sortLe_sorted l

theorem sortQ_perm (l : List ℚ) : List.Perm (sortQ l) l := sortLe_perm l

theorem sortQ_length (l : List ℚ) : (sortQ l).length = l.length := sortLe_length l

theorem mem_sortQ {x : ℚ} {l : List ℚ} : x ∈ sortQ l ↔ x ∈ l :=
  (sortLe_perm l).mem_iff

/-! ## Quantiles and IQR clipping

`Series.quantile(q)` in pandas uses linear interpolation between order
statistics: with the sorted values `x_0 ≤ … ≤ x_(n-1)` and
`pos = q·(n-1)`, `i = ⌊pos⌋`, `frac = pos - i`, the result is
`x_i + frac·(x_(i+1) - x_i)`.  The quantile fractions that occur in the
source are 1/4, 3/4 (outlier bounds) and 1/2 (median), so we carry the
quantile as a pair of naturals `qn/qd`; the floor above is then the
natural-number division `qn·(n-1) / qd`. -/

/-- Linear interpolation between positions `i` and `i+1` of `s`. -/
def interp (s : List ℚ) (i : ℕ) (frac : ℚ) : ℚ :=
  s.getD i 0 + frac * (s.getD (i + 1) (s.getD i 0) - s.getD i 0)

/-- Linear-interpolation quantile `qn/qd` of an ascending-sorted list
(the pandas default interpolation). -/
def quantileSorted (s : List ℚ) (qn qd : ℕ) : ℚ :=
  let m := s.length - 1
  let i : ℕ := qn * m / qd
  let frac : ℚ := ((qn * m : ℕ) : ℚ) / (qd : ℚ) - (i : ℚ)
  interp s i frac

/-- `Series.quantile(qn/qd)`: sort ascending, then interpolate. -/
def quantile (xs : List ℚ) (qn qd : ℕ) : ℚ :=
  quantileSorted (sortQ xs) qn qd

/-- The `[lower, upper]` clipping interval of `_handle_outliers` for one
column: `Q1 - k·IQR` and `Q3 + k·IQR` with `k` the configured
`outlier_threshold`. -/
def clipBounds (k : ℚ) (xs : List ℚ) : ℚ × ℚ :=
  let q1 := quantile xs 1 4
  let q3 := quantile xs 3 4
  let iqr := q3 - q1
  (q1 - k * iqr, q3 + k * iqr)

/-- `Series.clip(lower, upper)`: the lower bound is applied first, then
the upper bound (numpy semantics, so for `lower > upper` everything
collapses to `upper`). -/
def clamp (b : ℚ × ℚ) (x : ℚ) : ℚ := min b.2 (max b.1 x)

/-- One iteration of the `_handle_outliers` loop on a single numeric
column: cap every value at the IQR bounds of that column. -/
def clipColumn (k : ℚ) (xs : List ℚ) : List ℚ :=
  xs.map (clamp (clipBounds k xs))

/-! ### Order-statistics lemmas -/

theorem sorted_getD_mono {s : List ℚ} (hs : s.Sorted (· ≤ ·)) {i j : ℕ}
    (hij : i ≤ j) (hj : j < s.length) : s.getD i 0 ≤ s.getD j 0 := by
  rcases Nat.eq_or_lt_of_le hij with rfl | hlt
  · exact le_refl _
  · have hi : i < s.length := Nat.lt_trans hlt hj
    rw [List.getD_eq_getElem s 0 hi, List.getD_eq_getElem s 0 hj]
    have := List.pairwise_iff_get.mp hs ⟨i, hi⟩ ⟨j, hj⟩ hlt
    simpa using this

theorem getD_succ_ge {s : List ℚ} (hs : s.Sorted (· ≤ ·)) (i : ℕ) :
    s.getD i 0 ≤ s.getD (i + 1) (s.getD i 0) := by
  by_cases h1 : i + 1 < s.length
  · have hi : i < s.length := Nat.lt_of_succ_lt h1
    rw [List.getD_eq_getElem s _ h1]
    rw [List.getD_eq_getElem s 0 hi]
    have := List.pairwise_iff_get.mp hs ⟨i, hi⟩ ⟨i + 1, h1⟩ (Nat.lt_succ_self i)
    simpa using this
  · rw [List.getD_eq_default s _ (Nat.le_of_not_lt h1)]

theorem interp_ge {s : List ℚ} (hs : s.Sorted (· ≤ ·)) {m : ℚ}
    (hm : ∀ x ∈ s, m ≤ x) {i : ℕ} (hi : i < s.length) {f : ℚ} (hf0 : 0 ≤ f) :
    m ≤ interp s i f := by
  have hxi : m ≤ s.getD i 0 := by
    rw [List.getD_eq_getElem s 0 hi]
    exact hm _ (s.getElem_mem hi)
  have hd : 0 ≤ s.getD (i + 1) (s.getD i 0) - s.getD i 0 :=
    sub_nonneg.mpr (getD_succ_ge hs i)
  have h2 : 0 ≤ f * (s.getD (i + 1) (s.getD i 0) - s.getD i 0) := mul_nonneg hf0 hd
  unfold interp
  linarith

theorem interp_mono {s : List ℚ} (hs : s.Sorted (· ≤ ·)) {i j : ℕ} {f g : ℚ}
    (hj : j < s.length) (hf0 : 0 ≤ f) (hf1 : f ≤ 1) (hg0 : 0 ≤ g)
    (hij : i < j ∨ (i = j ∧ f ≤ g)) : interp s i f ≤ interp s j g := by
  rcases hij with hlt | ⟨rfl, hfg⟩
  · have hi1 : i + 1 < s.length := Nat.lt_of_le_of_lt hlt hj
    have e1 : interp s i f ≤ s.getD (i + 1) (s.getD i 0) := by
      have hd : 0 ≤ s.getD (i + 1) (s.getD i 0) - s.getD i 0 :=
        sub_nonneg.mpr (getD_succ_ge hs i)
      have h2 : f * (s.getD (i + 1) (s.getD i 0) - s.getD i 0) ≤
          s.getD (i + 1) (s.getD i 0) - s.getD i 0 := mul_le_of_le_one_left hd hf1
      unfold interp
      linarith
    have e2 : s.getD (i + 1) (s.getD i 0) ≤ s.getD j 0 := by
      rw [List.getD_eq_getElem s _ hi1, ← List.getD_eq_getElem s 0 hi1]
      exact sorted_getD_mono hs hlt hj
    have e3 : s.getD j 0 ≤ interp s j g := by
      have hd : 0 ≤ s.getD (j + 1) (s.getD j 0) - s.getD j 0 :=
        sub_nonneg.mpr (getD_succ_ge hs j)
      have h2 : 0 ≤ g * (s.getD (j + 1) (s.getD j 0) - s.getD j 0) := mul_nonneg hg0 hd
      unfold interp
      linarith
    exact le_trans e1 (le_trans e2 e3)
  · have hd : 0 ≤ s.getD (i + 1) (s.getD i 0) - s.getD i 0 :=
      sub_nonneg.mpr (getD_succ_ge hs i)
    have h2 := mul_le_mul_of_nonneg_right hfg hd
    unfold interp
    linarith

/-- The fractional part of the interpolation position `a/b`. -/
theorem frac_bounds {a b : ℕ} (hb : 0 < b) :
    0 ≤ ((a : ℚ) / b - ((a / b : ℕ) : ℚ)) ∧ ((a : ℚ) / b - ((a / b : ℕ) : ℚ)) < 1 := by
  have e := Nat.div_add_mod a b
  have ecast : (a : ℚ) = (b : ℚ) * ((a / b : ℕ) : ℚ) + ((a % b : ℕ) : ℚ) := by
    exact_mod_cast congrArg (Nat.cast : ℕ → ℚ) e.symm
  have hbq : (0 : ℚ) < (b : ℚ) := by exact_mod_cast hb
  have hfrac : (a : ℚ) / b - ((a / b : ℕ) : ℚ) = ((a % b : ℕ) : ℚ) / b := by
    field_simp [ecast]
  constructor
  · rw [hfrac]
    positivity
  · rw [hfrac, div_lt_one hbq]
    exact_mod_cast Nat.mod_lt a hb

theorem quantileSorted_index_lt {s : List ℚ} (hne : s ≠ []) {qn qd : ℕ}
    (hqd : 0 < qd) (hq : qn ≤ qd) : qn * (s.length - 1) / qd < s.length := by
  have h1 : qn * (s.length - 1) / qd ≤ qd * (s.length - 1) / qd :=
    Nat.div_le_div_right (by
      calc qn * (s.length - 1) ≤ qd * (s.length - 1) :=
        Nat.mul_le_mul_right _ hq)
  rw [Nat.mul_div_cancel_left _ hqd] at h1
  have h2 : s.length - 1 < s.length := Nat.sub_lt (List.length_pos.mpr hne) one_pos
  exact Nat.lt_of_le_of_lt h1 h2

theorem le_quantileSorted {s : List ℚ} (hs : s.Sorted (· ≤ ·)) (hne : s ≠ [])
    {m : ℚ} (hm : ∀ x ∈ s, m ≤ x) {qn qd : ℕ} (hqd : 0 < qd) (hq : qn ≤ qd) :
    m ≤ quantileSorted s qn qd := by
  unfold quantileSorted
  exact interp_ge hs hm (quantileSorted_index_lt hne hqd hq) (frac_bounds hqd).1

theorem quantileSorted_mono {s : List ℚ} (hs : s.Sorted (· ≤ ·)) (hne : s ≠ [])
    {qn1 qn2 qd : ℕ} (hqd : 0 < qd) (h12 : qn1 ≤ qn2) (h2 : qn2 ≤ qd) :
    quantileSorted s qn1 qd ≤ quantileSorted s qn2 qd := by
  unfold quantileSorted
  have hnum : qn1 * (s.length - 1) ≤ qn2 * (s.length - 1) := Nat.mul_le_mul_right _ h12
  have hidx : qn1 * (s.length - 1) / qd ≤ qn2 * (s.length - 1) / qd :=
    Nat.div_le_div_right hnum
  have hj : qn2 * (s.length - 1) / qd < s.length := quantileSorted_index_lt hne hqd h2
  rcases Nat.lt_or_ge (qn1 * (s.length - 1) / qd) (qn2 * (s.length - 1) / qd) with hlt | hge
  · exact interp_mono hs hj (frac_bounds hqd).1 (le_of_lt (frac_bounds hqd).2)
      (frac_bounds hqd).1 (Or.inl hlt)
  · have heq : qn1 * (s.length - 1) / qd = qn2 * (s.length - 1) / qd :=
      le_antisymm hidx hge
    have hnumq : ((qn1 * (s.length - 1) : ℕ) : ℚ) ≤ ((qn2 * (s.length - 1) : ℕ) : ℚ) := by
      exact_mod_cast hnum
    have hbq : (0 : ℚ) < (qd : ℚ) := by exact_mod_cast hqd
    refine interp_mono hs hj (frac_bounds hqd).1 (le_of_lt (frac_bounds hqd).2)
      (frac_bounds hqd).1 (Or.inr ⟨heq, ?_⟩)
    rw [heq]
    have h := (div_le_div_right hbq).mpr hnumq
    linarith

theorem le_quantile {xs : List ℚ} (hne : xs ≠ []) {m : ℚ} (hm : ∀ x ∈ xs, m ≤ x)
    {qn qd : ℕ} (hqd : 0 < qd) (hq : qn ≤ qd) : m ≤ quantile xs qn qd := by
  have hsne : sortQ xs ≠ [] := by
    intro h
    exact hne (List.length_eq_zero.mp (by rw [← sortQ_length, h, List.length_nil]))
  exact le_quantileSorted (sortQ_sorted xs) hsne
    (fun x hx => hm x (mem_sortQ.mp hx)) hqd hq

theorem quantile_q1_le_q3 {xs : List ℚ} (hne : xs ≠ []) :
    quantile xs 1 4 ≤ quantile xs 3 4 := by
  have hsne : sortQ xs ≠ [] := by
    intro h
    exact hne (List.length_eq_zero.mp (by rw [← sortQ_length, h, List.length_nil]))
  exact quantileSorted_mono (sortQ_sorted xs) hsne (by norm_num) (by norm_num) (by norm_num)

/-! ### Clamp lemmas -/

theorem clipBounds_fst_le_snd {k : ℚ} {xs : List ℚ} (hk : 0 ≤ k) (hne : xs ≠ []) :
    (clipBounds k xs).1 ≤ (clipBounds k xs).2 := by
  have h13 := quantile_q1_le_q3 hne
  have hiqr : 0 ≤ quantile xs 3 4 - quantile xs 1 4 := sub_nonneg.mpr h13
  have := mul_nonneg hk hiqr
  unfold clipBounds
  dsimp only
  linarith

theorem clamp_le_snd (b : ℚ × ℚ) (x : ℚ) : clamp b x ≤ b.2 := min_le_left _ _

theorem fst_le_clamp {b : ℚ × ℚ} (hb : b.1 ≤ b.2) (x : ℚ) : b.1 ≤ clamp b x :=
  le_min hb (le_max_left _ _)

theorem le_clamp {b : ℚ × ℚ} {m x : ℚ} (hu : m ≤ b.2) (hx : m ≤ x) : m ≤ clamp b x :=
  le_min hu (le_trans hx (le_max_right _ _))

theorem clamp_id {b : ℚ × ℚ} {x : ℚ} (h1 : b.1 ≤ x) (h2 : x ≤ b.2) : clamp b x = x := by
  unfold clamp
  rw [max_eq_right h1, min_eq_right h2]

theorem clamp_cases {b : ℚ × ℚ} (hb : b.1 ≤ b.2) (x : ℚ) :
    clamp b x = if x < b.1 then b.1 else if b.2 < x then b.2 else x := by
  unfold clamp
  by_cases h1 : x < b.1
  · rw [if_pos h1, max_eq_left (le_of_lt h1), min_eq_right hb]
  · rw [if_neg h1, max_eq_right (le_of_not_lt h1)]
    by_cases h2 : b.2 < x
    · rw [if_pos h2, min_eq_left (le_of_lt h2)]
    · rw [if_neg h2, min_eq_right (le_of_not_lt h2)]

/-! ### Column-clipping lemmas -/

theorem clipColumn_mem_bounds {k : ℚ} {xs : List ℚ} (hk : 0 ≤ k) :
    ∀ y ∈ clipColumn k xs, (clipBounds k xs).1 ≤ y ∧ y ≤ (clipBounds k xs).2 := by
  intro y hy
  obtain ⟨x, hx, rfl⟩ := List.mem_map.mp hy
  have hne : xs ≠ [] := List.ne_nil_of_mem hx
  exact ⟨fst_le_clamp (clipBounds_fst_le_snd hk hne) x, clamp_le_snd _ x⟩

theorem clipColumn_ge {k : ℚ} {xs : List ℚ} {m : ℚ} (hk : 0 ≤ k)
    (hm : ∀ x ∈ xs, m ≤ x) : ∀ y ∈ clipColumn k xs, m ≤ y := by
  intro y hy
  obtain ⟨x, hx, rfl⟩ := List.mem_map.mp hy
  have hne : xs ≠ [] := List.ne_nil_of_mem hx
  have hq3 : m ≤ quantile xs 3 4 := le_quantile hne hm (by norm_num) (by norm_num)
  have hiqr : 0 ≤ quantile xs 3 4 - quantile xs 1 4 :=
    sub_nonneg.mpr (quantile_q1_le_q3 hne)
  have hub : m ≤ (clipBounds k xs).2 := by
    have := mul_nonneg hk hiqr
    unfold clipBounds
    dsimp only
    linarith
  exact le_clamp hub (hm x hx)

theorem clipColumn_eq_self {k : ℚ} {xs : List ℚ}
    (h : ∀ x ∈ xs, (clipBounds k xs).1 ≤ x ∧ x ≤ (clipBounds k xs).2) :
    clipColumn k xs = xs := by
  unfold clipColumn
  calc xs.map (clamp (clipBounds k xs)) = xs.map id := by
        apply List.map_congr_left
        intro x hx
        exact clamp_id (h x hx).1 (h x hx).2
    _ = xs := List.map_id xs

theorem clipColumn_eq_ite {k : ℚ} {xs : List ℚ} (hk : 0 ≤ k) :
    clipColumn k xs =
      xs.map (fun x =>
        if x < (clipBounds k xs).1 then (clipBounds k xs).1
        else if (clipBounds k xs).2 < x then (clipBounds k xs).2 else x) := by
  rcases List.eq_nil_or_concat xs with rfl | ⟨_, _, rfl⟩
  · rfl
  · apply List.map_congr_left
    intro x hx
    exact clamp_cases (clipBounds_fst_le_snd hk (List.ne_nil_of_mem hx)) x

/-! ## Tables of named columns

`_handle_outliers(df, columns)` iterates over the requested column names
and caps each matching numeric column; non-numeric and absent columns are
skipped by the `if col in df.columns and df[col].dtype in [int64, float64]`
guard.  A dataframe is a list of named columns. -/

/-- A pandas column: numeric (`int64`/`float64`) or object dtype. -/
inductive Col where
  | nums (xs : List ℚ)
  | strs (xs : List String)
deriving DecidableEq

/-- One loop iteration of `_handle_outliers` applied to one stored column:
clip it when its name matches and it is numeric. -/
def clipEntry (k : ℚ) (c : String) (p : String × Col) : String × Col :=
  if p.1 = c then
    match p.2 with
    | Col.nums xs => (p.1, Col.nums (clipColumn k xs))
    | Col.strs xs => (p.1, Col.strs xs)
  else p

/-- `_handle_outliers(df, columns)`: the `for col in columns` loop. -/
def handle_outliers (k : ℚ) (df : List (String × Col)) (cols : List String) :
    List (String × Col) :=
  cols.foldl (fun acc c => acc.map (clipEntry k c)) df

/-- Effect of `_handle_outliers` on one stored column, ignoring the name
test (used to state what happens to columns that are listed). -/
def clipOnce (k : ℚ) (p : String × Col) : String × Col :=
  match p.2 with
  | Col.nums xs => (p.1, Col.nums (clipColumn k xs))
  | Col.strs xs => (p.1, Col.strs xs)

theorem clipEntry_of_eq {k : ℚ} {c : String} {p : String × Col} (h : p.1 = c) :
    clipEntry k c p = clipOnce k p := by
  unfold clipEntry clipOnce
  rw [if_pos h]

theorem clipEntry_of_ne {k : ℚ} {c : String} {p : String × Col} (h : p.1 ≠ c) :
    clipEntry k c p = p := by
  unfold clipEntry
  rw [if_neg h]

theorem clipOnce_fst (k : ℚ) (p : String × Col) : (clipOnce k p).1 = p.1 := by
  unfold clipOnce
  rcases p with ⟨n, xs | xs⟩ <;> rfl

/-- With distinct requested column names (as in both call sites of the
source), the fold clips each stored column at most once. -/
theorem handle_outliers_eq_map {k : ℚ} {cols : List String} (hnd : cols.Nodup)
    (df : List (String × Col)) :
    handle_outliers k df cols =
      df.map (fun p => if p.1 ∈ cols then clipOnce k p else p) := by
  induction cols generalizing df with
  | nil =>
    simp only [handle_outliers, List.foldl_nil, List.not_mem_nil, if_false]
    exact (List.map_id df).symm
  | cons c cs ih =>
    have hc : c ∉ cs := (List.nodup_cons.mp hnd).1
    have hcs : cs.Nodup := (List.nodup_cons.mp hnd).2
    have step : handle_outliers k df (c :: cs) =
        handle_outliers k (df.map (clipEntry k c)) cs := rfl
    rw [step, ih hcs, List.map_map]
    apply List.map_congr_left
    intro p _
    by_cases hpc : p.1 = c
    · have h1 : (clipEntry k c p) = clipOnce k p := clipEntry_of_eq hpc
      have h2 : (clipOnce k p).1 ∉ cs := by
        rw [clipOnce_fst, hpc]
        exact hc
      simp only [Function.comp_apply, h1, if_neg h2, List.mem_cons]
      rw [if_pos (Or.inl hpc)]
    · have h1 : (clipEntry k c p) = p := clipEntry_of_ne hpc
      simp only [Function.comp_apply, h1, List.mem_cons]
      by_cases hpcs : p.1 ∈ cs
      · rw [if_pos hpcs, if_pos (Or.inr hpcs)]
      · rw [if_neg hpcs, if_neg (by
          rintro (h | h)
          · exact hpc h
          · exact hpcs h)]

/-! ## Missing-value imputation (`_handle_missing_values`)

Numeric columns are filled with their median (pandas `median()` skips
missing values and linearly interpolates the 0.5 quantile); object
columns are filled with `df[categorical_cols].mode().iloc[0]`, the first
row of the modes frame, i.e. per column the smallest of its most frequent
values, since pandas returns modes in sorted order.  `mode()` drops
missing values; if every object column is wholly missing the modes frame
has zero rows and `.iloc[0]` raises an `IndexError`. -/

/-- The present (non-missing) values of a column. -/
def presentQ (xs : List (Option ℚ)) : List ℚ := xs.filterMap id

/-- The present (non-missing) values of an object column. -/
def presentS (xs : List (Option String)) : List String := xs.filterMap id

/-- `Series.median()`: missing for an all-missing column, otherwise the
interpolated 0.5 quantile of the present values. -/
def medianOf (xs : List (Option ℚ)) : Option ℚ :=
  match presentQ xs with
  | [] => none
  | v :: vs => some (quantile (v :: vs) 1 2)

/-- The highest frequency among the distinct values of `xs`. -/
def maxCount (xs : List String) : ℕ :=
  ((sortLe (dropDup xs)).map (fun w => List.count w xs)).foldr Nat.max 0

/-- `Series.mode()` of the present values: the most frequent values, in
ascending order (as pandas returns them). -/
def modesOf (xs : List String) : List String :=
  (sortLe (dropDup xs)).filter (fun v => List.count v xs == maxCount xs)

/-- The entry of `mode().iloc[0]` for one column: its first (smallest)
mode, or missing when the column has no present value. -/
def firstMode (xs : List String) : Option String := (modesOf xs).head?

/-- `Series.fillna(d)`: a missing fill value leaves the column unchanged
(filling with NaN is a no-op in pandas). -/
def fillWith {α : Type} (d : Option α) (xs : List (Option α)) : List (Option α) :=
  match d with
  | none => xs
  | some v => xs.map (fun o => some (o.getD v))

/-- A stored column that may contain missing values. -/
inductive OCol where
  | onums (xs : List (Option ℚ))
  | ostrs (xs : List (Option String))
deriving DecidableEq

/-- Is the column of object dtype (selected by `select_dtypes(object)`)? -/
def isCat : OCol → Bool
  | OCol.onums _ => false
  | OCol.ostrs _ => true

/-- Does the object column contribute a row to the modes frame? -/
def catHasMode : OCol → Bool
  | OCol.onums _ => false
  | OCol.ostrs xs => !(presentS xs).isEmpty

/-- The per-column fill performed by `_handle_missing_values`. -/
def fillCol : OCol → OCol
  | OCol.onums xs => OCol.onums (fillWith (medianOf xs) xs)
  | OCol.ostrs xs => OCol.ostrs (fillWith (firstMode (presentS xs)) xs)

/-- Error message of the out-of-bounds `.iloc[0]` on an empty modes
frame. -/
def errModeMsg : String := "IndexError: single positional indexer is out-of-bounds"

/-- `_handle_missing_values(df)`: median-fill numeric columns, mode-fill
object columns; raises when the modes frame of the object columns is
empty (every object column wholly missing). -/
def handle_missing_values (df : List (String × OCol)) :
    Except String (List (String × OCol)) :=
  if (df.any (fun p => isCat p.2)) && !(df.any (fun p => catHasMode p.2)) then
    Except.error errModeMsg
  else
    Except.ok (df.map (fun p => (p.1, fillCol p.2)))

/-! ### Mode lemmas -/

theorem le_foldr_max {l : List ℕ} {a : ℕ} (h : a ∈ l) : a ≤ l.foldr Nat.max 0 := by
  induction l with
  | nil => cases h
  | cons b t ih =>
    rcases List.mem_cons.mp h with rfl | ht
    · exact Nat.le_max_left _ _
    · exact le_trans (ih ht) (Nat.le_max_right _ _)

theorem foldr_max_attained {l : List ℕ} (h : l ≠ []) :
    ∃ a ∈ l, l.foldr Nat.max 0 = a := by
  induction l with
  | nil => exact absurd rfl h
  | cons b t ih =>
    rcases List.eq_nil_or_concat t with rfl | ⟨_, _, hcc⟩
    · exact ⟨b, List.mem_singleton_self b, Nat.max_eq_left (Nat.zero_le b)⟩
    · have htne : t ≠ [] := by
        rw [hcc]; exact List.concat_ne_nil _ _
      obtain ⟨a, ha, hfa⟩ := ih htne
      rcases Nat.le_total (t.foldr Nat.max 0) b with hle | hle
      · exact ⟨b, List.mem_cons_self b t, Nat.max_eq_left hle⟩
      · refine ⟨a, List.mem_cons.mpr (Or.inr ha), ?_⟩
        exact (Nat.max_eq_right hle).trans hfa

theorem modesOf_sorted (xs : List String) : (modesOf xs).Sorted (· ≤ ·) := by
  unfold modesOf
  exact List.Pairwise.sublist (List.filter_sublist _) (sortLe_sorted (dropDup xs))

theorem modesOf_subset {xs : List String} {m : String} (h : m ∈ modesOf xs) :
    m ∈ xs := by
  unfold modesOf at h
  have h1 := List.mem_of_mem_filter h
  exact mem_dropDup.mp (mem_sortLe.mp h1)

theorem modesOf_count_eq {xs : List String} {m : String} (h : m ∈ modesOf xs) :
    List.count m xs = maxCount xs := by
  unfold modesOf at h
  have h2 := List.of_mem_filter h
  simpa using h2

theorem modesOf_count_max {xs : List String} {m : String} (h : m ∈ modesOf xs) :
    ∀ v ∈ xs, List.count v xs ≤ List.count m xs := by
  intro v hv
  have hv2 : v ∈ sortLe (dropDup xs) := mem_sortLe.mpr (mem_dropDup.mpr hv)
  have hmem : List.count v xs ∈ (sortLe (dropDup xs)).map (fun w => List.count w xs) :=
    List.mem_map_of_mem _ hv2
  rw [modesOf_count_eq h]
  exact le_foldr_max hmem

theorem modesOf_ne_nil {xs : List String} (h : xs ≠ []) : modesOf xs ≠ [] := by
  have hkeys : sortLe (dropDup xs) ≠ [] := by
    intro hc
    rcases List.exists_mem_of_ne_nil xs h with ⟨a, ha⟩
    have hmm : a ∈ sortLe (dropDup xs) := mem_sortLe.mpr (mem_dropDup.mpr ha)
    rw [hc] at hmm
    cases hmm
  have hmapne : (sortLe (dropDup xs)).map (fun w => List.count w xs) ≠ [] := by
    intro hc
    exact hkeys (List.map_eq_nil.mp hc)
  obtain ⟨c, hc, hfc⟩ := foldr_max_attained hmapne
  obtain ⟨a, ha, rfl⟩ := List.mem_map.mp hc
  intro hnil
  have hmm : a ∈ modesOf xs := by
    unfold modesOf
    refine List.mem_filter.mpr ⟨ha, ?_⟩
    simp only [beq_iff_eq]
    exact hfc.symm
  rw [hnil] at hmm
  cases hmm

theorem firstMode_mem {xs : List String} {m : String}
    (h : firstMode xs = some m) : ∃ t, modesOf xs = m :: t := by
  unfold firstMode at h
  cases hmo : modesOf xs with
  | nil => rw [hmo] at h; cases h
  | cons a t =>
    rw [hmo] at h
    simp only [List.head?_cons, Option.some.injEq] at h
    refine ⟨t, ?_⟩
    rw [h]

theorem firstMode_spec {xs : List String} {m : String}
    (h : firstMode xs = some m) :
    m ∈ xs ∧ (∀ v ∈ xs, List.count v xs ≤ List.count m xs) ∧
      (∀ v ∈ xs, List.count v xs = List.count m xs → m ≤ v) := by
  obtain ⟨t, hmo⟩ := firstMode_mem h
  have hmem : m ∈ modesOf xs := by
    rw [hmo]; exact List.mem_cons_self m t
  refine ⟨modesOf_subset hmem, modesOf_count_max hmem, ?_⟩
  intro v hv hcount
  have hvmode : v ∈ modesOf xs := by
    unfold modesOf
    refine List.mem_filter.mpr ⟨mem_sortLe.mpr (mem_dropDup.mpr hv), ?_⟩
    simp only [beq_iff_eq]
    rw [hcount]
    exact modesOf_count_eq hmem
  have hsorted := modesOf_sorted xs
  rw [hmo] at hsorted hvmode
  rcases List.mem_cons.mp hvmode with rfl | hvt
  · exact le_refl _
  · exact List.rel_of_sorted_cons hsorted v hvt

theorem firstMode_isSome {xs : List String} (h : xs ≠ []) :
    ∃ m, firstMode xs = some m := by
  unfold firstMode
  cases hmo : modesOf xs with
  | nil => exact absurd hmo (modesOf_ne_nil h)
  | cons a t => exact ⟨a, rfl⟩

/-! ## IEEE-style extended values

pandas carries out column arithmetic in floating point: dividing a
nonzero value by zero yields `±inf`, `0/0` yields `NaN`, and no exception
is raised.  `PVal` embeds this value domain (with exact rationals in
place of finite floats; signed zero is not modelled, so `x / -0.0` is
taken as `x / 0.0`). -/

inductive PVal where
  | fin (q : ℚ)
  | pinf
  | ninf
  | nan
deriving DecidableEq

/-- IEEE addition. -/
def padd : PVal → PVal → PVal
  | PVal.fin a, PVal.fin b => PVal.fin (a + b)
  | PVal.fin _, PVal.pinf => PVal.pinf
  | PVal.fin _, PVal.ninf => PVal.ninf
  | PVal.pinf, PVal.fin _ => PVal.pinf
  | PVal.ninf, PVal.fin _ => PVal.ninf
  | PVal.pinf, PVal.pinf => PVal.pinf
  | PVal.ninf, PVal.ninf => PVal.ninf
  | PVal.pinf, PVal.ninf => PVal.nan
  | PVal.ninf, PVal.pinf => PVal.nan
  | PVal.nan, _ => PVal.nan
  | _, PVal.nan => PVal.nan

/-- IEEE multiplication. -/
def pmul : PVal → PVal → PVal
  | PVal.fin a, PVal.fin b => PVal.fin (a * b)
  | PVal.fin a, PVal.pinf =>
      if 0 < a then PVal.pinf else if a < 0 then PVal.ninf else PVal.nan
  | PVal.fin a, PVal.ninf =>
      if 0 < a then PVal.ninf else if a < 0 then PVal.pinf else PVal.nan
  | PVal.pinf, PVal.fin b =>
      if 0 < b then PVal.pinf else if b < 0 then PVal.ninf else PVal.nan
  | PVal.ninf, PVal.fin b =>
      if 0 < b then PVal.ninf else if b < 0 then PVal.pinf else PVal.nan
  | PVal.pinf, PVal.pinf => PVal.pinf
  | PVal.ninf, PVal.ninf => PVal.pinf
  | PVal.pinf, PVal.ninf => PVal.ninf
  | PVal.ninf, PVal.pinf => PVal.ninf
  | PVal.nan, _ => PVal.nan
  | _, PVal.nan => PVal.nan

/-- IEEE division (numpy warns on division by zero but does not raise). -/
def pdiv : PVal → PVal → PVal
  | PVal.fin a, PVal.fin b =>
      if b = 0 then
        if 0 < a then PVal.pinf else if a < 0 then PVal.ninf else PVal.nan
      else PVal.fin (a / b)
  | PVal.fin _, PVal.pinf => PVal.fin 0
  | PVal.fin _, PVal.ninf => PVal.fin 0
  | PVal.pinf, PVal.fin b => if 0 ≤ b then PVal.pinf else PVal.ninf
  | PVal.ninf, PVal.fin b => if 0 ≤ b then PVal.ninf else PVal.pinf
  | PVal.pinf, PVal.pinf => PVal.nan
  | PVal.pinf, PVal.ninf => PVal.nan
  | PVal.ninf, PVal.pinf => PVal.nan
  | PVal.ninf, PVal.ninf => PVal.nan
  | PVal.nan, _ => PVal.nan
  | _, PVal.nan => PVal.nan

/-! ## ROI calculator (`roi_calculator.py`)

`ROICalculator.calculate_campaign_roi` adds the financial ratio columns
to a copy of its input and returns it; its divisions have no epsilon
guard, so pandas float semantics (`PVal`) apply.  The CSV files it also
writes are out of scope.  `validate_data` is a separate method; nothing
in `calculate_campaign_roi` calls it. -/

/-- A campaign row as consumed by the ROI calculator (the `date` column
is never read by it and is omitted). -/
structure CampRow where
  campaign_name : Option String
  channel : String
  cost : ℚ
  impressions : ℚ
  clicks : ℚ
  conversions : ℚ
  revenue : ℚ
deriving DecidableEq

/-- A row of the table returned by `calculate_campaign_roi`. -/
structure ROIRow where
  campaign_name : Option String
  channel : String
  cost : ℚ
  impressions : ℚ
  clicks : ℚ
  conversions : ℚ
  revenue : ℚ
  roi : PVal
  profit : ℚ
  roas : PVal
  cpc : PVal
  cpa : PVal
  conversion_value : PVal
deriving DecidableEq

/-- `calculate_campaign_roi(df)`: works on `df.copy()`, computes
`roi = (revenue - cost)/cost*100`, `profit`, `roas = revenue/cost`,
`cpc = cost/clicks`, `cpa = cost/conversions`,
`conversion_value = revenue/conversions`, and returns the table. -/
def calculate_campaign_roi (df : List CampRow) : List ROIRow :=
  df.map (fun r =>
    { campaign_name := r.campaign_name
      channel := r.channel
      cost := r.cost
      impressions := r.impressions
      clicks := r.clicks
      conversions := r.conversions
      revenue := r.revenue
      roi := pmul (pdiv (PVal.fin (r.revenue - r.cost)) (PVal.fin r.cost)) (PVal.fin 100)
      profit := r.revenue - r.cost
      roas := pdiv (PVal.fin r.revenue) (PVal.fin r.cost)
      cpc := pdiv (PVal.fin r.cost) (PVal.fin r.clicks)
      cpa := pdiv (PVal.fin r.cost) (PVal.fin r.conversions)
      conversion_value := pdiv (PVal.fin r.revenue) (PVal.fin r.conversions) })

def errEmptyMsg : String := "Input DataFrame is empty"

def errCostMsg : String := "Found campaigns with zero or negative cost"

def errRevenueMsg : String := "Found campaigns with negative revenue"

/-- `ROICalculator.validate_data(df)`: raises on an empty table, then on
any non-positive cost, then on any negative revenue, else returns True.
(The missing-required-columns check cannot fire in this typed embedding,
where every row carries all required columns.) -/
def validate_data (df : List CampRow) : Except String Bool :=
  if df.isEmpty then Except.error errEmptyMsg
  else if df.any (fun r => r.cost ≤ 0) then Except.error errCostMsg
  else if df.any (fun r => r.revenue < 0) then Except.error errRevenueMsg
  else Except.ok true

/-! ## Rounding

`DataFrame.round(d)` rounds to `d` decimals using numpy rounding, which
is round-half-to-even. -/

/-- Round to the nearest integer, ties to even (numpy semantics). -/
def roundHalfEven (x : ℚ) : ℤ :=
  if x - (⌊x⌋ : ℚ) < 1/2 then ⌊x⌋
  else if (1:ℚ)/2 < x - (⌊x⌋ : ℚ) then ⌊x⌋ + 1
  else if ⌊x⌋ % 2 = 0 then ⌊x⌋ else ⌊x⌋ + 1

/-- `round(x, d)`: round to `d` decimal places. -/
def roundTo (d : ℕ) (x : ℚ) : ℚ :=
  ((roundHalfEven (x * 10 ^ d) : ℤ) : ℚ) / 10 ^ d

/-- Rounding a `PVal` column entry: `inf` and `NaN` pass through. -/
def pround (d : ℕ) : PVal → PVal
  | PVal.fin q => PVal.fin (roundTo d q)
  | v => v

theorem roundHalfEven_eq_of_lt_half {x : ℚ} {n : ℤ}
    (h1 : (n : ℚ) ≤ x) (h2 : x < (n : ℚ) + 1/2) : roundHalfEven x = n := by
  have hfl : ⌊x⌋ = n := by
    rw [Int.floor_eq_iff]
    constructor
    · exact_mod_cast h1
    · push_cast
      linarith
  unfold roundHalfEven
  rw [hfl, if_pos (by push_cast at h2 ⊢; linarith)]

theorem roundHalfEven_eq_of_half_lt {x : ℚ} {n : ℤ}
    (h1 : (n : ℚ) - 1/2 < x) (h2 : x ≤ (n : ℚ)) : roundHalfEven x = n := by
  rcases eq_or_lt_of_le h2 with rfl | hlt
  · have hfl : ⌊(n : ℚ)⌋ = n := Int.floor_intCast n
    unfold roundHalfEven
    rw [hfl, if_pos (by push_cast; norm_num)]
  · have hfl : ⌊x⌋ = n - 1 := by
      rw [Int.floor_eq_iff]
      constructor
      · push_cast
        linarith
      · push_cast
        linarith
    unfold roundHalfEven
    rw [hfl]
    rw [if_neg (by push_cast; push_cast at h1; linarith)]
    rw [if_pos (by push_cast; push_cast at h1; linarith)]
    omega

theorem abs_roundHalfEven_sub (x : ℚ) : |((roundHalfEven x : ℤ) : ℚ) - x| ≤ 1/2 := by
  have hf1 : ((⌊x⌋ : ℤ) : ℚ) ≤ x := Int.floor_le x
  have hf2 : x < ((⌊x⌋ : ℤ) : ℚ) + 1 := Int.lt_floor_add_one x
  unfold roundHalfEven
  by_cases c1 : x - ((⌊x⌋ : ℤ) : ℚ) < 1/2
  · rw [if_pos c1, abs_le]
    constructor <;> linarith
  · rw [if_neg c1]
    by_cases c2 : (1:ℚ)/2 < x - ((⌊x⌋ : ℤ) : ℚ)
    · rw [if_pos c2, abs_le]
      push_cast
      constructor <;> linarith
    · rw [if_neg c2]
      by_cases c3 : ⌊x⌋ % 2 = 0
      · rw [if_pos c3, abs_le]
        constructor <;> linarith
      · rw [if_neg c3, abs_le]
        push_cast
        constructor <;> linarith

theorem abs_roundTo_sub (d : ℕ) (x : ℚ) :
    |roundTo d x - x| ≤ 1 / (2 * 10 ^ d) := by
  have hpow : (0 : ℚ) < 10 ^ d := by positivity
  have h := abs_roundHalfEven_sub (x * 10 ^ d)
  unfold roundTo
  have he : ((roundHalfEven (x * 10 ^ d) : ℤ) : ℚ) / 10 ^ d - x =
      (((roundHalfEven (x * 10 ^ d) : ℤ) : ℚ) - x * 10 ^ d) / 10 ^ d := by
    field_simp
    ring
  rw [he, abs_div, abs_of_pos hpow, div_le_div_iff hpow (by positivity)]
  calc |((roundHalfEven (x * 10 ^ d) : ℤ) : ℚ) - x * 10 ^ d| * (2 * 10 ^ d)
      ≤ (1/2) * (2 * 10 ^ d) := by
        apply mul_le_mul_of_nonneg_right h
        positivity
    _ = 10 ^ d := by ring
    _ ≤ 1 * 10 ^ d := by linarith

theorem roundTo_int (d : ℕ) (n : ℤ) : roundTo d ((n : ℤ) : ℚ) = (n : ℚ) := by
  unfold roundTo
  have hcast : ((n : ℤ) : ℚ) * 10 ^ d = ((n * 10 ^ d : ℤ) : ℚ) := by push_cast; ring
  rw [hcast, roundHalfEven_eq_of_lt_half (le_refl _) (by norm_num)]
  push_cast
  have hpow : (0 : ℚ) < 10 ^ d := by positivity
  field_simp

/-! ## Channel aggregation (`analyze_channel_performance`)

Groups by channel (pandas emits group keys in ascending order), sums
cost/revenue/conversions/profit/impressions/clicks and means roi/roas
(all rounded to 2 decimals), then adds
`profit_contribution = (profit / total_profit * 100).round(1)` where
`total_profit` is the sum of the (already rounded) per-channel profits,
and finally `ctr`/`conversion_rate` recomputed from the aggregated
(rounded) sums. -/

/-- `Series.sum` of a `PVal` column. -/
def psum (l : List PVal) : PVal := l.foldr padd (PVal.fin 0)

/-- `Series.mean`: pandas skips NaN entries (skipna default). -/
def pmean (l : List PVal) : PVal :=
  let l2 := l.filter (fun v => v ≠ PVal.nan)
  pdiv (psum l2) (PVal.fin ((l2.length : ℕ) : ℚ))

/-- One row of the channel summary table. -/
structure ChannelRow where
  channel : String
  cost : ℚ
  revenue : ℚ
  conversions : ℚ
  profit : ℚ
  impressions : ℚ
  clicks : ℚ
  roi : PVal
  roas : PVal
  profit_contribution : PVal
  ctr : PVal
  conversion_rate : PVal
deriving DecidableEq

/-- The ascending list of distinct channels (pandas `groupby` key
order). -/
def channelKeys (df : List ROIRow) : List String :=
  sortLe (dropDup (df.map (fun r => r.channel)))

/-- The rows of one channel group. -/
def channelGroup (df : List ROIRow) (c : String) : List ROIRow :=
  df.filter (fun r => r.channel = c)

/-- The `groupby(channel).agg({...}).round(2)` table
(`profit_contribution`, `ctr`, `conversion_rate` not yet assigned;
pandas creates those columns later, the placeholder is never read). -/
def channelBase (df : List ROIRow) : List ChannelRow :=
  (channelKeys df).map (fun c =>
    { channel := c
      cost := roundTo 2 (((channelGroup df c).map (fun r => r.cost)).sum)
      revenue := roundTo 2 (((channelGroup df c).map (fun r => r.revenue)).sum)
      conversions := roundTo 2 (((channelGroup df c).map (fun r => r.conversions)).sum)
      profit := roundTo 2 (((channelGroup df c).map (fun r => r.profit)).sum)
      impressions := roundTo 2 (((channelGroup df c).map (fun r => r.impressions)).sum)
      clicks := roundTo 2 (((channelGroup df c).map (fun r => r.clicks)).sum)
      roi := pround 2 (pmean ((channelGroup df c).map (fun r => r.roi)))
      roas := pround 2 (pmean ((channelGroup df c).map (fun r => r.roas)))
      profit_contribution := PVal.nan
      ctr := PVal.nan
      conversion_rate := PVal.nan })

/-- `total_profit = channel_metrics['profit'].sum()` (over the rounded
per-channel sums). -/
def totalProfitOf (df : List ROIRow) : ℚ :=
  ((channelBase df).map (fun row => row.profit)).sum

/-- `analyze_channel_performance(df)`. -/
def analyze_channel_performance (df : List ROIRow) : List ChannelRow :=
  (channelBase df).map (fun row =>
    { row with
      profit_contribution :=
        pround 1 (pmul (pdiv (PVal.fin row.profit) (PVal.fin (totalProfitOf df)))
          (PVal.fin 100))
      ctr :=
        pround 2 (pmul (pdiv (PVal.fin row.clicks) (PVal.fin row.impressions))
          (PVal.fin 100))
      conversion_rate :=
        pround 2 (pmul (pdiv (PVal.fin row.conversions) (PVal.fin row.clicks))
          (PVal.fin 100)) })

/-- Extract the finite value of a `PVal` (0 for `inf`/`NaN`). -/
def finPart : PVal → ℚ
  | PVal.fin q => q
  | _ => 0

theorem sum_map_mul_const {α : Type} (l : List α) (f : α → ℚ) (c : ℚ) :
    (l.map (fun a => f a * c)).sum = (l.map f).sum * c := by
  induction l with
  | nil => simp
  | cons a t ih => simp [ih, add_mul]

theorem abs_sum_roundTo_sub (d : ℕ) (l : List ℚ) :
    |(l.map (roundTo d)).sum - l.sum| ≤ (l.length : ℚ) * (1 / (2 * 10 ^ d)) := by
  induction l with
  | nil => simp
  | cons a t ih =>
    have h1 := abs_roundTo_sub d a
    have htri : |(roundTo d a - a) + ((t.map (roundTo d)).sum - t.sum)| ≤
        |roundTo d a - a| + |(t.map (roundTo d)).sum - t.sum| := abs_add _ _
    have he : (roundTo d a + (t.map (roundTo d)).sum) - (a + t.sum) =
        (roundTo d a - a) + ((t.map (roundTo d)).sum - t.sum) := by ring
    simp only [List.map_cons, List.sum_cons, List.length_cons]
    rw [he]
    push_cast
    calc |(roundTo d a - a) + ((t.map (roundTo d)).sum - t.sum)|
        ≤ |roundTo d a - a| + |(t.map (roundTo d)).sum - t.sum| := htri
      _ ≤ 1 / (2 * 10 ^ d) + (t.length : ℚ) * (1 / (2 * 10 ^ d)) := by
          exact add_le_add h1 ih
      _ = ((t.length : ℚ) + 1) * (1 / (2 * 10 ^ d)) := by ring

/-! ## Generic typed column clipping

`_handle_outliers` on a typed row list: one `clipField` per listed
column, with the bounds computed from the column as it stands when the
loop reaches it. -/

/-- Clip the column selected by `get`/`set` at its IQR bounds. -/
def clipField {α : Type} (get : α → ℚ) (set : α → ℚ → α) (k : ℚ)
    (df : List α) : List α :=
  df.map (fun r => set r (clamp (clipBounds k (df.map get)) (get r)))

theorem clipBounds_snd_ge {k : ℚ} {xs : List ℚ} {m : ℚ} (hk : 0 ≤ k)
    (hne : xs ≠ []) (hm : ∀ y ∈ xs, m ≤ y) : m ≤ (clipBounds k xs).2 := by
  have hq3 : m ≤ quantile xs 3 4 := le_quantile hne hm (by norm_num) (by norm_num)
  have hiqr : 0 ≤ quantile xs 3 4 - quantile xs 1 4 :=
    sub_nonneg.mpr (quantile_q1_le_q3 hne)
  have h2 := mul_nonneg hk hiqr
  unfold clipBounds
  dsimp only
  linarith

theorem clipField_pres {α : Type} {get : α → ℚ} {set : α → ℚ → α} {k : ℚ}
    {d : List α} {P : α → Prop} (hset : ∀ r v, P r → P (set r v))
    (hall : ∀ r ∈ d, P r) : ∀ r2 ∈ clipField get set k d, P r2 := by
  intro r2 hr2
  obtain ⟨r, hr, rfl⟩ := List.mem_map.mp hr2
  exact hset r _ (hall r hr)

theorem clipField_ge {α : Type} {get : α → ℚ} {set : α → ℚ → α} {k m : ℚ}
    {d : List α} (hgs : ∀ r v, get (set r v) = v) (hk : 0 ≤ k)
    (hall : ∀ r ∈ d, m ≤ get r) : ∀ r2 ∈ clipField get set k d, m ≤ get r2 := by
  intro r2 hr2
  obtain ⟨r, hr, rfl⟩ := List.mem_map.mp hr2
  rw [hgs]
  have hcol : ∀ y ∈ d.map get, m ≤ y := by
    intro y hy
    obtain ⟨r3, hr3, rfl⟩ := List.mem_map.mp hy
    exact hall r3 hr3
  have hne : d.map get ≠ [] := by
    intro hc
    have := List.mem_map_of_mem get hr
    rw [hc] at this
    cases this
  exact le_clamp (clipBounds_snd_ge hk hne hcol) (hall r hr)

/-! ## Campaign cleaning (`clean_campaign_data`)

Stages: copy, `_handle_missing_values`, `drop_duplicates`,
`_handle_outliers` on cost/impressions/clicks/conversions/revenue,
`_calculate_campaign_metrics` (epsilon-guarded formulas), and
`_standardize_campaign_name`.

This typed embedding takes rows whose numeric cells are all present
(`campaign_name` may be missing); on such a table the median fill of
`_handle_missing_values` is the identity on every numeric column, and
the mode fill only affects `campaign_name` (`channel` is fully present,
so with a nonempty table the modes frame is never empty; the empty-table
`IndexError` of the imputer is outside this embedding, which makes every
stage trivial on an empty table). -/

/-- `eps = 1e-10`, the divide-by-zero guard of
`_calculate_campaign_metrics`. -/
def eps : ℚ := 1 / 10 ^ 10

/-- A cleaned campaign row with the derived metric columns. -/
structure CampRowM where
  campaign_name : Option String
  channel : String
  cost : ℚ
  impressions : ℚ
  clicks : ℚ
  conversions : ℚ
  revenue : ℚ
  ctr : ℚ
  conversion_rate : ℚ
  cost_per_click : ℚ
  cost_per_conversion : ℚ
  roi : ℚ
  roas : ℚ
deriving DecidableEq

/-- `_handle_missing_values` restricted to this schema: only the
`campaign_name` column can have missing entries; they are filled with
the first (smallest) mode of the present names, and left missing when no
name is present at all (the fill value is then NaN). -/
def imputeCampaignNames (df : List CampRow) : List CampRow :=
  match firstMode (df.filterMap (fun r => r.campaign_name)) with
  | none => df
  | some m => df.map (fun r => { r with campaign_name := some (r.campaign_name.getD m) })

/-- `_handle_outliers(df, ['cost','impressions','clicks','conversions',
'revenue'])`, columns processed in that order. -/
def clipCampaignCols (k : ℚ) (df : List CampRow) : List CampRow :=
  clipField (fun r => r.revenue) (fun r v => { r with revenue := v }) k
    (clipField (fun r => r.conversions) (fun r v => { r with conversions := v }) k
      (clipField (fun r => r.clicks) (fun r v => { r with clicks := v }) k
        (clipField (fun r => r.impressions) (fun r v => { r with impressions := v }) k
          (clipField (fun r => r.cost) (fun r v => { r with cost := v }) k df))))

/-- `_calculate_campaign_metrics` on one row: every division is guarded
by `eps`. -/
def calcMetricsRow (r : CampRow) : CampRowM :=
  { campaign_name := r.campaign_name
    channel := r.channel
    cost := r.cost
    impressions := r.impressions
    clicks := r.clicks
    conversions := r.conversions
    revenue := r.revenue
    ctr := r.clicks / (r.impressions + eps) * 100
    conversion_rate := r.conversions / (r.clicks + eps) * 100
    cost_per_click := r.cost / (r.clicks + eps)
    cost_per_conversion := r.cost / (r.conversions + eps)
    roi := (r.revenue - r.cost) / (r.cost + eps) * 100
    roas := r.revenue / (r.cost + eps) }

def unknownCampaign : String := "Unknown Campaign"

def sepSpace : String := " "

/-- Python `str.title()`: an alphabetic character is upper-cased after a
non-alphabetic character (or at the start) and lower-cased otherwise. -/
def titleGo : Bool → List Char → List Char
  | _, [] => []
  | prevAlpha, c :: cs =>
    if c.isAlpha then
      (if prevAlpha then c.toLower else c.toUpper) :: titleGo true cs
    else c :: titleGo false cs

/-- `_standardize_campaign_name`: a missing name becomes
`"Unknown Campaign"`; otherwise whitespace runs are collapsed to single
spaces (`' '.join(name.split())`) and the result is title-cased. -/
def standardize_campaign_name : Option String → String
  | none => unknownCampaign
  | some s =>
      String.mk (titleGo false
        (String.intercalate sepSpace
          ((s.split (fun c => c.isWhitespace)).filter (fun w => w ≠ ""))).data)

/-- `clean_campaign_data(df)` (operating on `df.copy()`). -/
def clean_campaign_data (k : ℚ) (df : List CampRow) : List CampRowM :=
  ((clipCampaignCols k (dropDup (imputeCampaignNames df))).map calcMetricsRow).map
    (fun r => { r with campaign_name := some (standardize_campaign_name r.campaign_name) })

/-! ### The imputer is the identity on fully-present tables -/

/-- Every cell of the column is present. -/
def allPresent : OCol → Prop
  | OCol.onums xs => ∀ o ∈ xs, o.isSome
  | OCol.ostrs xs => ∀ o ∈ xs, o.isSome

theorem fillWith_id {α : Type} (d : Option α) {xs : List (Option α)}
    (h : ∀ o ∈ xs, o.isSome) : fillWith d xs = xs := by
  cases d with
  | none => rfl
  | some v =>
    unfold fillWith
    calc xs.map (fun o => some (o.getD v)) = xs.map id := by
          apply List.map_congr_left
          intro o ho
          rcases o with _ | x
          · cases h none ho
          · rfl
      _ = xs := List.map_id xs

theorem fillCol_id {c : OCol} (h : allPresent c) : fillCol c = c := by
  cases c with
  | onums xs =>
    show OCol.onums (fillWith (medianOf xs) xs) = OCol.onums xs
    rw [fillWith_id _ h]
  | ostrs xs =>
    show OCol.ostrs (fillWith (firstMode (presentS xs)) xs) = OCol.ostrs xs
    rw [fillWith_id _ h]

/-- `_handle_missing_values` returns a fully-present table unchanged
(provided the heuristic error condition does not fire, e.g. whenever some
object column has a value or there is no object column). -/
theorem handle_missing_values_id {df : List (String × OCol)}
    (hp : ∀ p ∈ df, allPresent p.2)
    (hc : ((df.any (fun p => isCat p.2)) && !(df.any (fun p => catHasMode p.2))) = false) :
    handle_missing_values df = Except.ok df := by
  unfold handle_missing_values
  rw [if_neg (by rw [hc]; exact Bool.false_ne_true)]
  congr 1
  calc df.map (fun p => (p.1, fillCol p.2)) = df.map id := by
        apply List.map_congr_left
        intro p hpm
        rw [fillCol_id (hp p hpm)]
        rfl
      _ = df := List.map_id df

/-! ## Customer cleaning (`clean_customer_data`)

Stages: copy, `_handle_missing_values`, `drop_duplicates`, the two
threshold filters `sessions >= min_sessions` and
`revenue >= min_revenue`, `_handle_outliers` on
age/sessions/avg_session_duration/pages_per_session/transactions/revenue,
and upper-casing of `gender`/`country`.

The typed embedding takes rows with no missing entries; by
`handle_missing_values_id` the imputation stage is then the identity
(`gender`/`country` are fully present object columns, so the imputer
error cannot fire on a nonempty table; on the empty table all stages are
trivial). -/

/-- A customer row (all cells present). -/
structure CustRow where
  age : ℚ
  gender : String
  country : String
  sessions : ℚ
  avg_session_duration : ℚ
  pages_per_session : ℚ
  transactions : ℚ
  revenue : ℚ
deriving DecidableEq

/-- The imputation stage on a fully-present typed table
(see `handle_missing_values_id`). -/
def imputeCustomer (df : List CustRow) : List CustRow := df

/-- The rows surviving imputation, deduplication and the two threshold
filters, before any outlier clipping. -/
def customerSurvivors (ms mr : ℚ) (df : List CustRow) : List CustRow :=
  ((dropDup (imputeCustomer df)).filter (fun r => ms ≤ r.sessions)).filter
    (fun r => mr ≤ r.revenue)

/-- `_handle_outliers(df, ['age','sessions','avg_session_duration',
'pages_per_session','transactions','revenue'])` in loop order. -/
def clipCustomerCols (k : ℚ) (df : List CustRow) : List CustRow :=
  clipField (fun r => r.revenue) (fun r v => { r with revenue := v }) k
    (clipField (fun r => r.transactions) (fun r v => { r with transactions := v }) k
      (clipField (fun r => r.pages_per_session) (fun r v => { r with pages_per_session := v }) k
        (clipField (fun r => r.avg_session_duration)
            (fun r v => { r with avg_session_duration := v }) k
          (clipField (fun r => r.sessions) (fun r v => { r with sessions := v }) k
            (clipField (fun r => r.age) (fun r v => { r with age := v }) k df)))))

/-- `clean_customer_data(df)` (operating on `df.copy()`). -/
def clean_customer_data (k ms mr : ℚ) (df : List CustRow) : List CustRow :=
  (clipCustomerCols k (customerSurvivors ms mr df)).map
    (fun r => { r with gender := r.gender.toUpper, country := r.country.toUpper })

/-! ## Customer segmentation (`customer_segmentation.py`)

`segment_customers` assigns `df['cluster'] = kmeans.fit_predict(X)` and
then `df['segment'] = df['cluster'].map(self._get_segment_labels(df))`.
The k-means fit is an external collaborator (scikit-learn); it enters the
embedding as a parameter `fit` producing one cluster id per row.
`_get_segment_labels` aggregates mean revenue/transactions/sessions per
cluster (`groupby` emits keys ascending), sorts the aggregate by mean
revenue descending and maps the first three index entries to the three
business labels; `.map` of a dict leaves unmatched cluster ids missing. -/

/-- A cleaned customer row as consumed by the segmentation engine
(the fields its aggregation reads; `fit` may consult any of them). -/
structure SegRowIn where
  sessions : ℚ
  avg_session_duration : ℚ
  pages_per_session : ℚ
  transactions : ℚ
  revenue : ℚ
deriving DecidableEq

/-- A row after the `cluster` and `segment` columns are assigned. -/
structure SegRow where
  sessions : ℚ
  avg_session_duration : ℚ
  pages_per_session : ℚ
  transactions : ℚ
  revenue : ℚ
  cluster : ℕ
  segment : Option String
deriving DecidableEq

/-- `df['cluster'] = kmeans.fit_predict(X)` (before `segment` exists). -/
def addCluster (r : SegRowIn) (c : ℕ) : SegRow :=
  { sessions := r.sessions
    avg_session_duration := r.avg_session_duration
    pages_per_session := r.pages_per_session
    transactions := r.transactions
    revenue := r.revenue
    cluster := c
    segment := none }

/-- The table after the cluster assignment. -/
def withClusters (fit : List SegRowIn → List ℕ) (df : List SegRowIn) : List SegRow :=
  (df.zip (fit df)).map (fun p => addCluster p.1 p.2)

/-- Drop the added columns. -/
def stripSeg (r : SegRow) : SegRowIn :=
  { sessions := r.sessions
    avg_session_duration := r.avg_session_duration
    pages_per_session := r.pages_per_session
    transactions := r.transactions
    revenue := r.revenue }

/-- `groupby('cluster')` key order (ascending distinct ids). -/
def clusterKeys (d : List SegRow) : List ℕ :=
  sortLe (dropDup (d.map (fun r => r.cluster)))

/-- The member rows of one cluster. -/
def clusterMembers (d : List SegRow) (c : ℕ) : List SegRow :=
  d.filter (fun r => r.cluster = c)

/-- `Series.mean`. -/
def meanQ (l : List ℚ) : ℚ := l.sum / (l.length : ℚ)

/-- One row of `df.groupby('cluster').agg({'revenue': 'mean',
'transactions': 'mean', 'sessions': 'mean'})`. -/
structure ClusterAgg where
  cluster : ℕ
  revenue_mean : ℚ
  transactions_mean : ℚ
  sessions_mean : ℚ
deriving DecidableEq

/-- The cluster aggregate table, keys ascending. -/
def clusterAggOf (d : List SegRow) : List ClusterAgg :=
  (clusterKeys d).map (fun c =>
    { cluster := c
      revenue_mean := meanQ ((clusterMembers d c).map (fun r => r.revenue))
      transactions_mean := meanQ ((clusterMembers d c).map (fun r => r.transactions))
      sessions_mean := meanQ ((clusterMembers d c).map (fun r => r.sessions)) })

/-- `sort_values('revenue', ascending=False)` comparison: a row precedes
another when its mean revenue is at least as large. -/
def AggGe (a b : ClusterAgg) : Prop := b.revenue_mean ≤ a.revenue_mean

instance : DecidableRel AggGe :=
  fun a b => (inferInstance : Decidable (b.revenue_mean ≤ a.revenue_mean))

instance : IsTotal ClusterAgg AggGe :=
  ⟨fun a b => le_total b.revenue_mean a.revenue_mean⟩

instance : IsTrans ClusterAgg AggGe :=
  ⟨fun _ _ _ h1 h2 => le_trans h2 h1⟩

/-- Insertion step of the descending sort on mean revenue. -/
def insertAggDesc (a : ClusterAgg) : List ClusterAgg → List ClusterAgg
  | [] => [a]
  | b :: bs =>
    if b.revenue_mean ≤ a.revenue_mean then a :: b :: bs else b :: insertAggDesc a bs

/-- `sort_values('revenue', ascending=False)` on the aggregate table. -/
def sortAggDesc : List ClusterAgg → List ClusterAgg
  | [] => []
  | a :: rest => insertAggDesc a (sortAggDesc rest)

theorem insertAggDesc_eq (a : ClusterAgg) (l : List ClusterAgg) :
    insertAggDesc a l = List.orderedInsert AggGe a l := by
  induction l with
  | nil => rfl
  | cons b bs ih =>
    by_cases h : b.revenue_mean ≤ a.revenue_mean
    · simp [insertAggDesc, List.orderedInsert, AggGe, h]
    · simp [insertAggDesc, List.orderedInsert, AggGe, h, ih]

theorem sortAggDesc_eq (l : List ClusterAgg) :
    sortAggDesc l = List.insertionSort AggGe l := by
  induction l with
  | nil => rfl
  | cons a rest ih => simp [sortAggDesc, List.insertionSort, ih, insertAggDesc_eq]

theorem sortAggDesc_perm (l : List ClusterAgg) : List.Perm (sortAggDesc l) l := by
  rw [sortAggDesc_eq]
  exact List.perm_insertionSort AggGe l

def labelHigh : String := "High-Value Buyers"

def labelDeal : String := "Deal Seekers"

def labelCasual : String := "Casual Visitors"

def errIndexLabel : String := "IndexError: index 2 is out of bounds"

/-- `_get_segment_labels(df)`: ranks clusters by mean revenue descending
and maps the first three sorted index entries to the business labels;
with fewer than three clusters the positional lookup `index[i]` raises. -/
def getSegmentLabels (d : List SegRow) : Except String (List (ℕ × String)) :=
  match sortAggDesc (clusterAggOf d) with
  | a :: b :: c :: _ =>
      Except.ok [(a.cluster, labelHigh), (b.cluster, labelDeal), (c.cluster, labelCasual)]
  | _ => Except.error errIndexLabel

/-- `segment_customers(df)`: assign clusters, then map cluster ids to
labels (missing for an id outside the label dict). -/
def segment_customers (fit : List SegRowIn → List ℕ) (df : List SegRowIn) :
    Except String (List SegRow) :=
  match getSegmentLabels (withClusters fit df) with
  | Except.error e => Except.error e
  | Except.ok labels =>
      Except.ok ((withClusters fit df).map
        (fun r => { r with segment := labels.lookup r.cluster }))

/-! ### Caller-visible effects (claim C10)

`clean_campaign_data` and `clean_customer_data` start with
`df = df.copy()` and mutate only the copy; `segment_customers` assigns
`df['cluster']` and `df['segment']` on the caller's own object, so after
a successful call the caller's variable denotes the same augmented table
that is returned. -/

/-- What a call leaves behind: the table the caller's argument variable
refers to afterwards, and the returned table. -/
structure CallResult (α β : Type) where
  callerArg : α
  ret : β

/-- Calling `clean_campaign_data`: the first statement `df = df.copy()`
rebinds the local name, so the caller's table is untouched. -/
def clean_campaign_data_call (k : ℚ) (df : List CampRow) :
    CallResult (List CampRow) (List CampRowM) :=
  { callerArg := df, ret := clean_campaign_data k df }

/-- Calling `clean_customer_data`: likewise on a copy. -/
def clean_customer_data_call (k ms mr : ℚ) (df : List CustRow) :
    CallResult (List CustRow) (List CustRow) :=
  { callerArg := df, ret := clean_customer_data k ms mr df }

/-- Calling `segment_customers`: the column assignments mutate the
argument object itself, so on success the caller sees the returned
table. -/
def segment_customers_call (fit : List SegRowIn → List ℕ) (df : List SegRowIn) :
    Except String (CallResult (List SegRow) (List SegRow)) :=
  match segment_customers fit df with
  | Except.error e => Except.error e
  | Except.ok out => Except.ok { callerArg := out, ret := out }

/-! # Claims -/

/-- Column name used in concrete outlier-clipping tables. -/
def colValue : String := "value"

/-- Claim C4 (amended: the multiplier is required to be nonnegative, as
the configured 1.5 is; a negative multiplier flips the bounds, see the
counterexample):  for every listed numeric column the clipped column is
exactly the original clipped at `[Q1 - k·IQR, Q3 + k·IQR]` computed on
the pre-clip values, every clipped value lies inside those bounds,
values outside are clamped to the nearest bound (none removed), and
columns that are absent from the requested list or non-numeric are left
untouched without error. -/
theorem claim4_amended_theorem (k : ℚ) (df : List (String × Col))
    (cols : List String) (hk : 0 ≤ k) (hnd : cols.Nodup) :
    (handle_outliers k df cols =
        df.map (fun p => if p.1 ∈ cols then clipOnce k p else p)) ∧
    (∀ p ∈ df, p.1 ∉ cols → p ∈ handle_outliers k df cols) ∧
    (∀ name ys, (name, Col.strs ys) ∈ df →
        (name, Col.strs ys) ∈ handle_outliers k df cols) ∧
    (∀ name xs, (name, Col.nums xs) ∈ df → name ∈ cols →
        (name, Col.nums (clipColumn k xs)) ∈ handle_outliers k df cols) ∧
    (∀ xs : List ℚ, ∀ y ∈ clipColumn k xs,
        (clipBounds k xs).1 ≤ y ∧ y ≤ (clipBounds k xs).2) ∧
    (∀ xs : List ℚ, clipColumn k xs =
        xs.map (fun x => if x < (clipBounds k xs).1 then (clipBounds k xs).1
          else if (clipBounds k xs).2 < x then (clipBounds k xs).2 else x)) := by
  have hmap := @handle_outliers_eq_map k _ hnd df
  refine ⟨hmap, ?_, ?_, ?_, ?_, ?_⟩
  · intro p hp hnotin
    rw [hmap]
    have : (if p.1 ∈ cols then clipOnce k p else p) = p := if_neg hnotin
    rw [← this]
    exact List.mem_map_of_mem _ hp
  · intro name ys hmem
    rw [hmap]
    have himg : (if (name, Col.strs ys).1 ∈ cols then clipOnce k (name, Col.strs ys)
        else (name, Col.strs ys)) = (name, Col.strs ys) := by
      by_cases hin : name ∈ cols
      · simp only [hin, if_pos]
        rfl
      · exact if_neg hin
    rw [← himg]
    exact List.mem_map_of_mem _ hmem
  · intro name xs hmem hin
    rw [hmap]
    have himg : (if (name, Col.nums xs).1 ∈ cols then clipOnce k (name, Col.nums xs)
        else (name, Col.nums xs)) = (name, Col.nums (clipColumn k xs)) := by
      simp only [hin, if_pos]
      rfl
    rw [← himg]
    exact List.mem_map_of_mem _ hmem
  · intro xs y hy
    exact clipColumn_mem_bounds hk y hy
  · intro xs
    exact clipColumn_eq_ite hk

/-- Claim C4 witness: the amended theorem applied to a concrete table;
the listed column `[10, 20, 30, 1000]` with `k = 1.5` is clipped to
`[10, 20, 30, 655]` (bounds `[-365, 655]`). -/
theorem claim4_witness :
    handle_outliers (3/2) [(colValue, Col.nums [10, 20, 30, 1000])] [colValue] =
      [(colValue, Col.nums [10, 20, 30, 655])] := by
  have h := (claim4_amended_theorem (3/2) [(colValue, Col.nums [10, 20, 30, 1000])]
    [colValue] (by norm_num) (by simp)).1
  rw [h]
  norm_num [clipOnce, clipColumn, clipBounds, clamp, quantile, quantileSorted,
    sortQ, sortLe, insertLe, interp]

/-- Claim C4 counterexample: the claim quantifies over any configured
multiplier; with `k = -1` the bounds invert (`lower = 3 > upper = 1`,
numpy clip then returns `upper` everywhere), so the clipped column
`[1,1,1,1,1]` violates `lower ≤ value`: the claim as stated is false. -/
theorem claim4_counterexample :
    handle_outliers (-1) [(colValue, Col.nums [0, 1, 2, 3, 4])] [colValue] =
      [(colValue, Col.nums [1, 1, 1, 1, 1])] ∧
    (clipBounds (-1) [0, 1, 2, 3, 4]).1 = 3 ∧
    ¬ (∀ y ∈ clipColumn (-1 : ℚ) [0, 1, 2, 3, 4],
        (clipBounds (-1) [0, 1, 2, 3, 4]).1 ≤ y ∧
          y ≤ (clipBounds (-1) [0, 1, 2, 3, 4]).2) := by
  refine ⟨?_, ?_, ?_⟩
  · norm_num [handle_outliers, List.foldl_cons, List.foldl_nil, clipEntry,
      clipColumn, clipBounds, clamp, quantile, quantileSorted, sortQ, sortLe,
      insertLe, interp]
  · norm_num [clipBounds, quantile, quantileSorted, sortQ, sortLe, insertLe, interp]
  · intro hall
    have h1 : (1 : ℚ) ∈ clipColumn (-1 : ℚ) [0, 1, 2, 3, 4] := by
      norm_num [clipColumn, clipBounds, clamp, quantile, quantileSorted, sortQ,
        sortLe, insertLe, interp]
    have h2 := (hall 1 h1).1
    have h3 : (clipBounds (-1) [0, 1, 2, 3, 4]).1 = 3 := by
      norm_num [clipBounds, quantile, quantileSorted, sortQ, sortLe, insertLe, interp]
    rw [h3] at h2
    norm_num at h2

/-- Claim C8 (amended): the clipping step is a no-op on every listed
numeric column whose values already lie within that column's own IQR
bounds; idempotence in general fails, because a second application
recomputes Q1/Q3/IQR on the already-clipped data and can clip further
(see the counterexample). -/
theorem claim8_amended_theorem (k : ℚ) (df : List (String × Col))
    (cols : List String) (hnd : cols.Nodup)
    (h : ∀ name xs, (name, Col.nums xs) ∈ df → name ∈ cols →
        ∀ x ∈ xs, (clipBounds k xs).1 ≤ x ∧ x ≤ (clipBounds k xs).2) :
    handle_outliers k df cols = df := by
  rw [handle_outliers_eq_map hnd]
  calc df.map (fun p => if p.1 ∈ cols then clipOnce k p else p) = df.map id := by
        apply List.map_congr_left
        intro p hp
        by_cases hin : p.1 ∈ cols
        · rw [if_pos hin]
          rcases p with ⟨name, xs | ys⟩
          · show (name, Col.nums (clipColumn k xs)) = id (name, Col.nums xs)
            rw [clipColumn_eq_self (h name xs hp hin)]
            rfl
          · rfl
        · rw [if_neg hin]
          rfl
    _ = df := List.map_id df

/-- Claim C8 witness: the amended theorem applied to the concrete column
`[1, 2, 3, 4]` with `k = 1.5` (bounds `[-1/2, 11/2]` contain every
value), where clipping is indeed a no-op. -/
theorem claim8_witness :
    handle_outliers (3/2) [(colValue, Col.nums [1, 2, 3, 4])] [colValue] =
      [(colValue, Col.nums [1, 2, 3, 4])] := by
  apply claim8_amended_theorem (3/2) _ _ (by simp)
  intro name xs hmem hin
  simp only [List.mem_singleton, Prod.mk.injEq, Col.nums.injEq] at hmem
  rw [hmem.2]
  intro x hx
  have hb1 : (clipBounds (3/2) [1, 2, 3, 4]).1 = -(1/2) := by
    norm_num [clipBounds, quantile, quantileSorted, sortQ, sortLe, insertLe, interp]
  have hb2 : (clipBounds (3/2) [1, 2, 3, 4]).2 = 11/2 := by
    norm_num [clipBounds, quantile, quantileSorted, sortQ, sortLe, insertLe, interp]
  rw [hb1, hb2]
  fin_cases hx <;> norm_num

/-- Claim C8 counterexample: re-clipping the already-clipped column
`[10, 20, 30, 655]` (from `[10, 20, 30, 1000]` with `k = 1.5`) clips
again to `[10, 20, 30, 439.375]` — the step is not idempotent. -/
theorem claim8_counterexample :
    handle_outliers (3/2)
        (handle_outliers (3/2) [(colValue, Col.nums [10, 20, 30, 1000])] [colValue])
        [colValue] ≠
      handle_outliers (3/2) [(colValue, Col.nums [10, 20, 30, 1000])] [colValue] := by
  have h1 : handle_outliers (3/2) [(colValue, Col.nums [10, 20, 30, 1000])] [colValue] =
      [(colValue, Col.nums [10, 20, 30, 655])] := by
    norm_num [handle_outliers, List.foldl_cons, List.foldl_nil, clipEntry,
      clipColumn, clipBounds, clamp, quantile, quantileSorted, sortQ, sortLe,
      insertLe, interp]
  have h2 : handle_outliers (3/2) [(colValue, Col.nums [10, 20, 30, 655])] [colValue] =
      [(colValue, Col.nums [10, 20, 30, 3515/8])] := by
    norm_num [handle_outliers, List.foldl_cons, List.foldl_nil, clipEntry,
      clipColumn, clipBounds, clamp, quantile, quantileSorted, sortQ, sortLe,
      insertLe, interp]
  rw [h1, h2]
  intro hc
  have := List.head_eq_of_cons_eq hc
  simp only [Prod.mk.injEq, Col.nums.injEq] at this
  have h3 := this.2
  have h4 : ((3515 : ℚ)/8) = 655 := by
    have := List.head_eq_of_cons_eq h3
    exact List.head_eq_of_cons_eq (List.tail_eq_of_cons_eq
      (List.tail_eq_of_cons_eq (List.tail_eq_of_cons_eq h3)))
  norm_num at h4

/-- Column names and values for concrete imputer tables. -/
def colX : String := "x"

def colG : String := "g"

def strM : String := "m"

/-- Claim C9 (amended: the no-failure guarantee for wholly-missing
columns holds for numeric columns always, and for categorical columns
only while some categorical column still has a present value; when every
categorical column is wholly missing the imputer raises an IndexError,
see the counterexample): the imputer fills numeric gaps with the column
median (the interpolated 0.5 quantile of the present values; a
wholly-missing numeric column is returned unchanged) and categorical
gaps with the first mode in deterministic ordering — a most frequent
value that is the smallest such in lexicographic order; a wholly-missing
categorical column is returned unchanged, and every nonempty categorical
column has a first mode. -/
theorem claim9_amended_theorem (df : List (String × OCol))
    (hc : ((df.any (fun p => isCat p.2)) && !(df.any (fun p => catHasMode p.2))) = false) :
    handle_missing_values df = Except.ok (df.map (fun p => (p.1, fillCol p.2))) ∧
    (∀ xs : List (Option ℚ), presentQ xs = [] →
        fillCol (OCol.onums xs) = OCol.onums xs) ∧
    (∀ (xs : List (Option ℚ)) (v : ℚ) (vs : List ℚ), presentQ xs = v :: vs →
        fillCol (OCol.onums xs) =
          OCol.onums (xs.map (fun o => some (o.getD (quantile (v :: vs) 1 2))))) ∧
    (∀ xs : List (Option String), presentS xs = [] →
        fillCol (OCol.ostrs xs) = OCol.ostrs xs) ∧
    (∀ (xs : List (Option String)) (m : String), firstMode (presentS xs) = some m →
        fillCol (OCol.ostrs xs) = OCol.ostrs (xs.map (fun o => some (o.getD m))) ∧
        m ∈ presentS xs ∧
        (∀ v ∈ presentS xs, List.count v (presentS xs) ≤ List.count m (presentS xs)) ∧
        (∀ v ∈ presentS xs,
            List.count v (presentS xs) = List.count m (presentS xs) → m ≤ v)) ∧
    (∀ xs : List (Option String), presentS xs ≠ [] →
        ∃ m, firstMode (presentS xs) = some m) := by
  refine ⟨?_, ?_, ?_, ?_, ?_, ?_⟩
  · unfold handle_missing_values
    rw [hc]
    rfl
  · intro xs h
    show OCol.onums (fillWith (medianOf xs) xs) = OCol.onums xs
    unfold medianOf
    rw [h]
    rfl
  · intro xs v vs h
    show OCol.onums (fillWith (medianOf xs) xs) = _
    unfold medianOf
    rw [h]
    rfl
  · intro xs h
    show OCol.ostrs (fillWith (firstMode (presentS xs)) xs) = OCol.ostrs xs
    rw [h]
    rfl
  · intro xs m h
    have hspec := firstMode_spec h
    refine ⟨?_, hspec.1, hspec.2.1, hspec.2.2⟩
    show OCol.ostrs (fillWith (firstMode (presentS xs)) xs) = _
    rw [h]
    rfl
  · intro xs h
    exact firstMode_isSome h

/-- Claim C9 witness: the amended theorem applied to a concrete table;
the numeric gap is filled with the median 2 of `[1, 3]`, the categorical
gap with the mode of the present values. -/
theorem claim9_witness :
    handle_missing_values
        [(colX, OCol.onums [some 1, some 3, none]), (colG, OCol.ostrs [some strM, none])] =
      Except.ok
        [(colX, OCol.onums [some 1, some 3, some 2]),
          (colG, OCol.ostrs [some strM, some strM])] := by
  have h := (claim9_amended_theorem
    [(colX, OCol.onums [some 1, some 3, none]), (colG, OCol.ostrs [some strM, none])]
    (by simp [isCat, catHasMode, presentS])).1
  rw [h]
  congr 1
  norm_num [fillCol, medianOf, presentQ, presentS, fillWith, firstMode, modesOf,
    maxCount, dropDup, dropDupGo, sortLe, insertLe, quantile, quantileSorted,
    sortQ, interp, List.filterMap_cons, List.filterMap_nil, id_eq,
    Option.getD_some, Option.getD_none]

/-- Claim C9 counterexample: a table whose only categorical column is
wholly missing makes `_handle_missing_values` raise (`mode()` of the
object columns has no first row, `.iloc[0]` is out of bounds) instead of
returning the NaN column unchanged: the claim as stated is false. -/
theorem claim9_counterexample :
    handle_missing_values
        [(colX, OCol.onums [some 1, none]), (colG, OCol.ostrs [none, none])] =
      Except.error errModeMsg := by
  norm_num [handle_missing_values, isCat, catHasMode, presentS]

def chEmail : String := "email"

def c1row1 : CampRow :=
  { campaign_name := none, channel := chEmail, cost := 100, impressions := 1000,
    clicks := 100, conversions := 10, revenue := 150 }

def c1row2 : CampRow :=
  { campaign_name := none, channel := chEmail, cost := 200, impressions := 2000,
    clicks := 200, conversions := 20, revenue := 300 }

def c1row3 : CampRow :=
  { campaign_name := none, channel := chEmail, cost := 0, impressions := 3000,
    clicks := 300, conversions := 30, revenue := 50 }

def c1row4 : CampRow :=
  { campaign_name := none, channel := chEmail, cost := 400, impressions := 4000,
    clicks := 400, conversions := 40, revenue := 500 }

/-- The spec scenario: four campaign rows with costs `[100, 200, 0, 400]`. -/
def c1rows : List CampRow := [c1row1, c1row2, c1row3, c1row4]

/-- Claim C1 (amended: the descriptive zero/negative-cost error is raised
by the separate `validate_data` step, not by `calculate_campaign_roi`;
`calculate_campaign_roi` performs no validation and never refuses — called
directly on such a table it computes and returns a full output table with
one row per input row, the unguarded zero-cost divisions propagating IEEE
special values instead of raising: a zero-cost row with positive revenue
gets `roi = roas = +inf`, while its `cpc` and `cpa` stay finite `0`
whenever its clicks and conversions are nonzero): on any table containing
a row with `cost ≤ 0`, `validate_data` raises the error naming the
zero/negative-cost condition, while `calculate_campaign_roi` still
produces one output row per input row, with those metric values on every
zero-cost row. -/
theorem claim1_amended_theorem (df : List CampRow) (h : ∃ r ∈ df, r.cost ≤ 0) :
    validate_data df = Except.error errCostMsg ∧
    (calculate_campaign_roi df).length = df.length ∧
    ∀ r ∈ df, r.cost = 0 →
      ∃ r' ∈ calculate_campaign_roi df,
        r'.channel = r.channel ∧ r'.cost = 0 ∧ r'.revenue = r.revenue ∧
        (0 < r.revenue → r'.roi = PVal.pinf ∧ r'.roas = PVal.pinf) ∧
        (r.clicks ≠ 0 → r'.cpc = PVal.fin 0) ∧
        (r.conversions ≠ 0 → r'.cpa = PVal.fin 0) := by
  obtain ⟨r, hr, hc⟩ := h
  refine ⟨?_, ?_, ?_⟩
  · have hne : df.isEmpty = false := by
      cases df with
      | nil => cases hr
      | cons a t => rfl
    have hany : df.any (fun r => decide (r.cost ≤ 0)) = true := by
      rw [List.any_eq_true]
      exact ⟨r, hr, by simpa using hc⟩
    unfold validate_data
    rw [if_neg (by rw [hne]; exact Bool.false_ne_true)]
    rw [if_pos hany]
  · unfold calculate_campaign_roi
    exact List.length_map df _
  · intro s hs hc0
    refine ⟨_, List.mem_map_of_mem _ hs, rfl, hc0, rfl, ?_, ?_, ?_⟩
    · intro hrev
      constructor
      · show pmul (pdiv (PVal.fin (s.revenue - s.cost)) (PVal.fin s.cost))
            (PVal.fin 100) = PVal.pinf
        rw [hc0, sub_zero]
        norm_num [pdiv, pmul, hrev]
      · show pdiv (PVal.fin s.revenue) (PVal.fin s.cost) = PVal.pinf
        rw [hc0]
        norm_num [pdiv, hrev]
    · intro hcl
      show pdiv (PVal.fin s.cost) (PVal.fin s.clicks) = PVal.fin 0
      rw [hc0]
      simp [pdiv, hcl]
    · intro hcv
      show pdiv (PVal.fin s.cost) (PVal.fin s.conversions) = PVal.fin 0
      rw [hc0]
      simp [pdiv, hcv]

/-- Claim C1 witness: the amended theorem applied to the spec scenario
table with costs `[100, 200, 0, 400]`: `validate_data` raises the
zero/negative-cost error, `calculate_campaign_roi` returns all four rows,
and the zero-cost row's output has `roi = roas = +inf` with finite
`cpc = cpa = 0`. -/
theorem claim1_witness :
    validate_data c1rows = Except.error errCostMsg ∧
    (calculate_campaign_roi c1rows).length = 4 ∧
    ∃ r' ∈ calculate_campaign_roi c1rows,
      r'.channel = c1row3.channel ∧ r'.cost = 0 ∧ r'.revenue = c1row3.revenue ∧
      (r'.roi = PVal.pinf ∧ r'.roas = PVal.pinf) ∧
      r'.cpc = PVal.fin 0 ∧ r'.cpa = PVal.fin 0 := by
  have h := claim1_amended_theorem c1rows
    ⟨c1row3,
      List.mem_cons_of_mem _ (List.mem_cons_of_mem _ (List.mem_cons_self _ _)),
      by norm_num [c1row3]⟩
  refine ⟨h.1, h.2.1.trans rfl, ?_⟩
  obtain ⟨r', hmem, hch, hc, hrv, hroi, hcpc, hcpa⟩ := h.2.2 c1row3
    (List.mem_cons_of_mem _ (List.mem_cons_of_mem _ (List.mem_cons_self _ _)))
    rfl
  exact ⟨r', hmem, hch, hc, hrv, hroi (by norm_num [c1row3]),
    hcpc (by norm_num [c1row3]), hcpa (by norm_num [c1row3])⟩

/-- Claim C1 counterexample: on the scenario table with a zero-cost row,
`calculate_campaign_roi` does not raise and does not refuse to produce an
output table — it returns all four rows, the zero-cost row's `roi` being
`+inf` (revenue 50 > 0 divided by cost 0): the claim as stated is false
of the code. -/
theorem claim1_counterexample :
    (calculate_campaign_roi c1rows).length = 4 ∧
    ((calculate_campaign_roi c1rows).map (fun r => r.roi)).getD 2 PVal.nan =
      PVal.pinf := by
  constructor
  · rfl
  · norm_num [calculate_campaign_roi, c1rows, c1row1, c1row2, c1row3, c1row4,
      pdiv, pmul]

/-- Claim C5: every row of the customer-cleaning output satisfies
`sessions ≥ min_sessions` and `revenue ≥ min_revenue` (even after the
outlier clipping that follows the filter, for the nonnegative configured
multiplier); and a row survives to the filter stage exactly when it
occurs in the input and meets both thresholds on its pre-clip values —
rows failing either threshold are dropped there, not clipped. -/
theorem claim5_theorem (k ms mr : ℚ) (df : List CustRow) (hk : 0 ≤ k) :
    (∀ r ∈ clean_customer_data k ms mr df, ms ≤ r.sessions ∧ mr ≤ r.revenue) ∧
    (∀ r : CustRow, r ∈ customerSurvivors ms mr df ↔
        r ∈ df ∧ ms ≤ r.sessions ∧ mr ≤ r.revenue) := by
  have hmem : ∀ r : CustRow, r ∈ customerSurvivors ms mr df ↔
      r ∈ df ∧ ms ≤ r.sessions ∧ mr ≤ r.revenue := by
    intro r
    unfold customerSurvivors imputeCustomer
    rw [List.mem_filter, List.mem_filter, mem_dropDup]
    simp only [decide_eq_true_eq]
    tauto
  refine ⟨?_, hmem⟩
  have h0 : ∀ r ∈ customerSurvivors ms mr df, ms ≤ r.sessions ∧ mr ≤ r.revenue :=
    fun r h => ((hmem r).mp h).2
  have h1 : ∀ r ∈ clipField (fun r => r.age) (fun r v => { r with age := v }) k
      (customerSurvivors ms mr df), ms ≤ r.sessions ∧ mr ≤ r.revenue :=
    clipField_pres (fun _ _ hp => hp) h0
  have h2s : ∀ r ∈ clipField (fun r => r.sessions) (fun r v => { r with sessions := v }) k
      (clipField (fun r => r.age) (fun r v => { r with age := v }) k
        (customerSurvivors ms mr df)), ms ≤ r.sessions :=
    clipField_ge (fun _ _ => rfl) hk (fun r h => (h1 r h).1)
  have h2r : ∀ r ∈ clipField (fun r => r.sessions) (fun r v => { r with sessions := v }) k
      (clipField (fun r => r.age) (fun r v => { r with age := v }) k
        (customerSurvivors ms mr df)), mr ≤ r.revenue :=
    clipField_pres (fun _ _ hp => hp) (fun r h => (h1 r h).2)
  have h2 : ∀ r ∈ clipField (fun r => r.sessions) (fun r v => { r with sessions := v }) k
      (clipField (fun r => r.age) (fun r v => { r with age := v }) k
        (customerSurvivors ms mr df)), ms ≤ r.sessions ∧ mr ≤ r.revenue :=
    fun r h => ⟨h2s r h, h2r r h⟩
  have h3 : ∀ r ∈ clipField (fun r => r.avg_session_duration)
      (fun r v => { r with avg_session_duration := v }) k
      (clipField (fun r => r.sessions) (fun r v => { r with sessions := v }) k
        (clipField (fun r => r.age) (fun r v => { r with age := v }) k
          (customerSurvivors ms mr df))), ms ≤ r.sessions ∧ mr ≤ r.revenue :=
    clipField_pres (fun _ _ hp => hp) h2
  have h4 : ∀ r ∈ clipField (fun r => r.pages_per_session)
      (fun r v => { r with pages_per_session := v }) k
      (clipField (fun r => r.avg_session_duration)
        (fun r v => { r with avg_session_duration := v }) k
        (clipField (fun r => r.sessions) (fun r v => { r with sessions := v }) k
          (clipField (fun r => r.age) (fun r v => { r with age := v }) k
            (customerSurvivors ms mr df)))), ms ≤ r.sessions ∧ mr ≤ r.revenue :=
    clipField_pres (fun _ _ hp => hp) h3
  have h5 : ∀ r ∈ clipField (fun r => r.transactions)
      (fun r v => { r with transactions := v }) k
      (clipField (fun r => r.pages_per_session)
        (fun r v => { r with pages_per_session := v }) k
        (clipField (fun r => r.avg_session_duration)
          (fun r v => { r with avg_session_duration := v }) k
          (clipField (fun r => r.sessions) (fun r v => { r with sessions := v }) k
            (clipField (fun r => r.age) (fun r v => { r with age := v }) k
              (customerSurvivors ms mr df))))), ms ≤ r.sessions ∧ mr ≤ r.revenue :=
    clipField_pres (fun _ _ hp => hp) h4
  have h6s : ∀ r ∈ clipCustomerCols k (customerSurvivors ms mr df), ms ≤ r.sessions :=
    clipField_pres (fun _ _ hp => hp) (fun r h => (h5 r h).1)
  have h6r : ∀ r ∈ clipCustomerCols k (customerSurvivors ms mr df), mr ≤ r.revenue :=
    clipField_ge (fun _ _ => rfl) hk (fun r h => (h5 r h).2)
  intro r hr
  unfold clean_customer_data at hr
  obtain ⟨r5, hr5, rfl⟩ := List.mem_map.mp hr
  exact ⟨h6s r5 hr5, h6r r5 hr5⟩

def w5r1 : CustRow :=
  { age := 25, gender := strM, country := strM, sessions := 10,
    avg_session_duration := 120, pages_per_session := 5, transactions := 2,
    revenue := 200 }

def w5r2 : CustRow :=
  { age := 30, gender := strM, country := strM, sessions := 20,
    avg_session_duration := 240, pages_per_session := 10, transactions := 4,
    revenue := 400 }

def w5r3 : CustRow :=
  { age := 35, gender := strM, country := strM, sessions := -1,
    avg_session_duration := 300, pages_per_session := 15, transactions := 1,
    revenue := 600 }

def w5r4 : CustRow :=
  { age := 40, gender := strM, country := strM, sessions := 30,
    avg_session_duration := 360, pages_per_session := 25, transactions := 6,
    revenue := 800 }

/-- The spec scenario: customer sessions `[10, 20, -1, 30]` with
`min_sessions = 0`. -/
def w5rows : List CustRow := [w5r1, w5r2, w5r3, w5r4]

/-- Claim C5 witness: the theorem applied to the scenario table; every
output row meets the thresholds, and the `sessions = -1` row is dropped
at the filter stage regardless of other validity. -/
theorem claim5_witness :
    (∀ r ∈ clean_customer_data (3/2) 0 0 w5rows,
        (0:ℚ) ≤ r.sessions ∧ (0:ℚ) ≤ r.revenue) ∧
    w5r3 ∉ customerSurvivors 0 0 w5rows := by
  have h := claim5_theorem (3/2) 0 0 w5rows (by norm_num)
  refine ⟨h.1, ?_⟩
  intro hc
  have h2 := ((h.2 w5r3).mp hc).2.1
  norm_num [w5r3] at h2

/-- Claim C6: for every cleaned campaign row the derived metrics equal
the epsilon-guarded formulas exactly (over `ℚ`, standing in for the
"within floating tolerance" of the spec), and the `ctr` denominator
`impressions + eps` is strictly positive — so `ctr` never raises — even
when `impressions = 0`, for nonnegative input impressions and the
nonnegative configured multiplier. -/
theorem claim6_theorem (k : ℚ) (df : List CampRow) (hk : 0 ≤ k)
    (himp : ∀ r ∈ df, 0 ≤ r.impressions) :
    ∀ r ∈ clean_campaign_data k df,
      r.roi = (r.revenue - r.cost) / (r.cost + eps) * 100 ∧
      r.ctr = r.clicks / (r.impressions + eps) * 100 ∧
      r.conversion_rate = r.conversions / (r.clicks + eps) * 100 ∧
      r.cost_per_click = r.cost / (r.clicks + eps) ∧
      r.cost_per_conversion = r.cost / (r.conversions + eps) ∧
      r.roas = r.revenue / (r.cost + eps) ∧
      0 < r.impressions + eps := by
  have himp1 : ∀ r ∈ imputeCampaignNames df, 0 ≤ r.impressions := by
    unfold imputeCampaignNames
    cases hfm : firstMode (df.filterMap (fun r => r.campaign_name)) with
    | none => exact himp
    | some m =>
      intro r hr
      obtain ⟨r0, hr0, rfl⟩ := List.mem_map.mp hr
      exact himp r0 hr0
  have himp2 : ∀ r ∈ dropDup (imputeCampaignNames df), 0 ≤ r.impressions :=
    fun r h => himp1 r (mem_dropDup.mp h)
  have himp3 : ∀ r ∈ clipField (fun r => r.cost) (fun r v => { r with cost := v }) k
      (dropDup (imputeCampaignNames df)), 0 ≤ r.impressions :=
    clipField_pres (fun _ _ hp => hp) himp2
  have himp4 : ∀ r ∈ clipField (fun r => r.impressions)
      (fun r v => { r with impressions := v }) k
      (clipField (fun r => r.cost) (fun r v => { r with cost := v }) k
        (dropDup (imputeCampaignNames df))), 0 ≤ r.impressions :=
    clipField_ge (fun _ _ => rfl) hk himp3
  have himp5 : ∀ r ∈ clipField (fun r => r.clicks) (fun r v => { r with clicks := v }) k
      (clipField (fun r => r.impressions) (fun r v => { r with impressions := v }) k
        (clipField (fun r => r.cost) (fun r v => { r with cost := v }) k
          (dropDup (imputeCampaignNames df)))), 0 ≤ r.impressions :=
    clipField_pres (fun _ _ hp => hp) himp4
  have himp6 : ∀ r ∈ clipField (fun r => r.conversions)
      (fun r v => { r with conversions := v }) k
      (clipField (fun r => r.clicks) (fun r v => { r with clicks := v }) k
        (clipField (fun r => r.impressions) (fun r v => { r with impressions := v }) k
          (clipField (fun r => r.cost) (fun r v => { r with cost := v }) k
            (dropDup (imputeCampaignNames df))))), 0 ≤ r.impressions :=
    clipField_pres (fun _ _ hp => hp) himp5
  have himp7 : ∀ r ∈ clipCampaignCols k (dropDup (imputeCampaignNames df)),
      0 ≤ r.impressions :=
    clipField_pres (fun _ _ hp => hp) himp6
  intro r hr
  unfold clean_campaign_data at hr
  obtain ⟨r4, hr4, rfl⟩ := List.mem_map.mp hr
  obtain ⟨r3, hr3, rfl⟩ := List.mem_map.mp hr4
  refine ⟨rfl, rfl, rfl, rfl, rfl, rfl, ?_⟩
  have h1 : 0 ≤ r3.impressions := himp7 r3 hr3
  have h2 : (0:ℚ) < eps := by norm_num [eps]
  show 0 < r3.impressions + eps
  linarith

def c6row1 : CampRow :=
  { campaign_name := none, channel := chEmail, cost := 100, impressions := 1000,
    clicks := 50, conversions := 5, revenue := 200 }

/-- A campaign row with zero impressions. -/
def c6row2 : CampRow :=
  { campaign_name := none, channel := chEmail, cost := 10, impressions := 0,
    clicks := 0, conversions := 0, revenue := 0 }

def c6rows : List CampRow := [c6row1, c6row2]

/-- Claim C6 witness: the theorem applied at a concrete table that
includes a row with `impressions = 0`. -/
theorem claim6_witness :
    List.Forall (fun r : CampRowM =>
      r.roi = (r.revenue - r.cost) / (r.cost + eps) * 100 ∧
      r.ctr = r.clicks / (r.impressions + eps) * 100 ∧
      r.conversion_rate = r.conversions / (r.clicks + eps) * 100 ∧
      r.cost_per_click = r.cost / (r.clicks + eps) ∧
      r.cost_per_conversion = r.cost / (r.conversions + eps) ∧
      r.roas = r.revenue / (r.cost + eps) ∧
      0 < r.impressions + eps) (clean_campaign_data (3/2) c6rows) := by
  refine List.forall_iff_forall_mem.mpr ?_
  apply claim6_theorem (3/2) c6rows (by norm_num)
  intro r hr
  fin_cases hr <;> norm_num [c6row1, c6row2]

theorem analyze_contribution_eq (df : List ROIRow) (hT : totalProfitOf df ≠ 0) :
    (analyze_channel_performance df).map (fun ch => ch.profit_contribution) =
      (channelBase df).map
        (fun row => PVal.fin (roundTo 1 (row.profit / totalProfitOf df * 100))) := by
  unfold analyze_channel_performance
  rw [List.map_map]
  apply List.map_congr_left
  intro row _
  show pround 1 (pmul (pdiv (PVal.fin row.profit) (PVal.fin (totalProfitOf df)))
      (PVal.fin 100)) = _
  simp only [pdiv]
  rw [if_neg hT]
  rfl

/-- Claim C7 (amended: the per-channel formula is as claimed, but the
rounding tolerance on the total is one half-unit of the last decimal per
channel, `0.05·n`, not the flat ±0.1 of the claim — six equal channels
already sum to 100.2, see the counterexample): with nonzero total
profit, each channel's `profit_contribution` equals that channel's
(rounded) summed profit divided by total profit times 100, rounded to 1
decimal, and the sum of the contributions differs from 100 by at most
`n/20` for `n` channels. -/
theorem claim7_amended_theorem (df : List ROIRow) (hT : totalProfitOf df ≠ 0) :
    (∀ ch ∈ analyze_channel_performance df,
        ch.profit_contribution =
          PVal.fin (roundTo 1 (ch.profit / totalProfitOf df * 100))) ∧
    |(((analyze_channel_performance df).map
        (fun ch => roundTo 1 (ch.profit / totalProfitOf df * 100))).sum) - 100| ≤
      ((analyze_channel_performance df).length : ℚ) * (1 / 20) := by
  constructor
  · intro ch hch
    unfold analyze_channel_performance at hch
    obtain ⟨row, hrow, rfl⟩ := List.mem_map.mp hch
    show pround 1 (pmul (pdiv (PVal.fin row.profit) (PVal.fin (totalProfitOf df)))
        (PVal.fin 100)) = _
    simp only [pdiv]
    rw [if_neg hT]
    rfl
  · have hmm : (analyze_channel_performance df).map
        (fun ch => roundTo 1 (ch.profit / totalProfitOf df * 100)) =
        (channelBase df).map
          (fun row => roundTo 1 (row.profit / totalProfitOf df * 100)) := by
      unfold analyze_channel_performance
      rw [List.map_map]
      rfl
    have hlen : (analyze_channel_performance df).length = (channelBase df).length := by
      unfold analyze_channel_performance
      exact List.length_map _ _
    rw [hmm, hlen]
    have hsum : ((channelBase df).map
        (fun row => row.profit / totalProfitOf df * 100)).sum = 100 := by
      have he : (channelBase df).map
          (fun row => row.profit / totalProfitOf df * 100) =
          (channelBase df).map
            (fun row => (fun r : ChannelRow => r.profit) row * (100 / totalProfitOf df)) := by
        apply List.map_congr_left
        intro row _
        field_simp
      rw [he, sum_map_mul_const]
      show totalProfitOf df * (100 / totalProfitOf df) = 100
      field_simp
    have hb := abs_sum_roundTo_sub 1
      ((channelBase df).map (fun row => row.profit / totalProfitOf df * 100))
    rw [hsum, List.map_map, List.length_map] at hb
    have : (10:ℚ) ^ 1 = 10 := by norm_num
    calc |(((channelBase df).map
          (fun row => roundTo 1 (row.profit / totalProfitOf df * 100))).sum) - 100|
        = |(((channelBase df).map
            ((roundTo 1) ∘ (fun row => row.profit / totalProfitOf df * 100))).sum) - 100| := rfl
      _ ≤ ((channelBase df).length : ℚ) * (1 / (2 * 10 ^ 1)) := hb
      _ ≤ ((channelBase df).length : ℚ) * (1 / 20) := by norm_num

def chA : String := "a"

def chB : String := "b"

def chC : String := "c"

def chD : String := "d"

def chE : String := "e"

def chF : String := "f"

/-- One single-campaign channel of profit 1. -/
def mkRoi6 (c : String) : ROIRow :=
  { campaign_name := none, channel := c, cost := 1, impressions := 1, clicks := 1,
    conversions := 1, revenue := 2, roi := PVal.fin 100, profit := 1,
    roas := PVal.fin 2, cpc := PVal.fin 1, cpa := PVal.fin 1,
    conversion_value := PVal.fin 2 }

/-- Six channels with equal profit 1. -/
def df6 : List ROIRow := [mkRoi6 chA, mkRoi6 chB, mkRoi6 chC, mkRoi6 chD,
  mkRoi6 chE, mkRoi6 chF]

theorem strle_ab : (("a" : String) ≤ "b") := by simp; decide

theorem strle_bc : (("b" : String) ≤ "c") := by simp; decide

theorem strle_cd : (("c" : String) ≤ "d") := by simp; decide

theorem strle_de : (("d" : String) ≤ "e") := by simp; decide

theorem strle_ef : (("e" : String) ≤ "f") := by simp; decide

theorem roundTo_two_one : roundTo 2 (1 : ℚ) = 1 := by
  simpa using roundTo_int 2 1

theorem roundTo_fifty_thirds : roundTo 1 ((50 : ℚ)/3) = 167/10 := by
  unfold roundTo
  have h : roundHalfEven ((50:ℚ)/3 * 10 ^ 1) = 167 := by
    apply roundHalfEven_eq_of_half_lt
    · push_cast
      norm_num
    · push_cast
      norm_num
  rw [h]
  push_cast
  norm_num

theorem df6_keys : channelKeys df6 = [chA, chB, chC, chD, chE, chF] := by
  unfold channelKeys
  norm_num [df6, mkRoi6, chA, chB, chC, chD, chE, chF, dropDup, dropDupGo,
    sortLe, insertLe, strle_ab, strle_bc, strle_cd, strle_de, strle_ef]
  all_goals decide

theorem df6_profits : (channelBase df6).map (fun row => row.profit) =
    [1, 1, 1, 1, 1, 1] := by
  unfold channelBase
  rw [df6_keys, List.map_map]
  simp [Function.comp, channelGroup, df6, mkRoi6, chA, chB, chC, chD, chE,
    chF, List.filter_cons, List.filter_nil, roundTo_two_one]

theorem df6_total : totalProfitOf df6 = 6 := by
  unfold totalProfitOf
  rw [df6_profits]
  norm_num

/-- Claim C7 counterexample: six channels of equal profit each get
contribution `round1(100/6) = 16.7`, so the contributions sum to 100.2,
outside the claimed ±0.1 tolerance: the claim as stated is false. -/
theorem claim7_counterexample :
    ((analyze_channel_performance df6).map
        (fun ch => finPart ch.profit_contribution)).sum = 501/5 ∧
    ¬ (|(501/5 : ℚ) - 100| ≤ 1/10) := by
  constructor
  · have hT : totalProfitOf df6 ≠ 0 := by
      rw [df6_total]
      norm_num
    have h1 : (analyze_channel_performance df6).map
        (fun ch => finPart ch.profit_contribution) =
        ((analyze_channel_performance df6).map
          (fun ch => ch.profit_contribution)).map finPart := by
      rw [List.map_map]
      rfl
    rw [h1, analyze_contribution_eq df6 hT, List.map_map]
    have h2 : (finPart ∘ fun row : ChannelRow =>
        PVal.fin (roundTo 1 (row.profit / totalProfitOf df6 * 100))) =
        (fun row : ChannelRow => roundTo 1 (row.profit / totalProfitOf df6 * 100)) := by
      funext row
      rfl
    rw [h2]
    have h3 : (channelBase df6).map
        (fun row => roundTo 1 (row.profit / totalProfitOf df6 * 100)) =
        ((channelBase df6).map (fun row => row.profit)).map
          (fun p => roundTo 1 (p / totalProfitOf df6 * 100)) := by
      rw [List.map_map]
      rfl
    rw [h3, df6_profits, df6_total]
    have h4 : (1:ℚ) / 6 * 100 = 50/3 := by norm_num
    norm_num [h4, roundTo_fifty_thirds]
  · intro h
    rw [abs_le] at h
    linarith [h.2]

/-- Claim C7 witness: the amended theorem applied to the six-channel
table `df6` (total profit 6 ≠ 0). -/
theorem claim7_witness :
    (∀ ch ∈ analyze_channel_performance df6,
        ch.profit_contribution =
          PVal.fin (roundTo 1 (ch.profit / totalProfitOf df6 * 100))) ∧
    |(((analyze_channel_performance df6).map
        (fun ch => roundTo 1 (ch.profit / totalProfitOf df6 * 100))).sum) - 100| ≤
      ((analyze_channel_performance df6).length : ℚ) * (1 / 20) :=
  claim7_amended_theorem df6 (by rw [df6_total]; norm_num)

/-! ### Segmentation lemmas -/

def w2r1 : SegRowIn :=
  { sessions := 10, avg_session_duration := 100, pages_per_session := 5,
    transactions := 1, revenue := 500 }

def w2r2 : SegRowIn :=
  { sessions := 20, avg_session_duration := 200, pages_per_session := 10,
    transactions := 2, revenue := 1500 }

def w2r3 : SegRowIn :=
  { sessions := 30, avg_session_duration := 300, pages_per_session := 15,
    transactions := 3, revenue := 100 }

/-- The spec scenario: three singleton clusters with mean revenues
`[500, 1500, 100]`. -/
def w2rows : List SegRowIn := [w2r1, w2r2, w2r3]

def fitW2 : List SegRowIn → List ℕ := fun _ => [0, 1, 2]

/-- Claim C3 (amended: only a cluster count below 3 fails fast with the
out-of-range lookup; a count above 3 does not fail — the three
highest-revenue clusters are labeled and every row of any other cluster
silently receives a missing segment label, see the counterexample):
with fewer than three distinct clusters `_get_segment_labels` raises the
out-of-range `IndexError`; whenever `segment_customers` succeeds, the
sorted aggregate has at least three rows and any row whose cluster is
not among the first three sorted clusters ends with no segment label. -/
theorem claim3_amended_theorem (fit : List SegRowIn → List ℕ) (df : List SegRowIn) :
    ((clusterKeys (withClusters fit df)).length < 3 →
        getSegmentLabels (withClusters fit df) = Except.error errIndexLabel) ∧
    (∀ out, segment_customers fit df = Except.ok out →
        ∃ a b c rest,
          sortAggDesc (clusterAggOf (withClusters fit df)) = a :: b :: c :: rest ∧
          ∀ r ∈ out, r.cluster ≠ a.cluster → r.cluster ≠ b.cluster →
            r.cluster ≠ c.cluster → r.segment = none) := by
  constructor
  · intro hlt
    have hlen : (sortAggDesc (clusterAggOf (withClusters fit df))).length < 3 := by
      rw [(sortAggDesc_perm _).length_eq]
      unfold clusterAggOf
      rw [List.length_map]
      exact hlt
    unfold getSegmentLabels
    rcases hs : sortAggDesc (clusterAggOf (withClusters fit df)) with
      _ | ⟨a, _ | ⟨b, _ | ⟨c, t⟩⟩⟩
    · rfl
    · rfl
    · rfl
    · rw [hs] at hlen
      simp at hlen
      omega
  · intro out hout
    unfold segment_customers at hout
    cases hlab : getSegmentLabels (withClusters fit df) with
    | error e =>
      rw [hlab] at hout
      cases hout
    | ok labels =>
      rw [hlab] at hout
      have hout2 : out = (withClusters fit df).map
          (fun r => { r with segment := labels.lookup r.cluster }) := by
        injection hout with h
        exact h.symm
      unfold getSegmentLabels at hlab
      rcases hs : sortAggDesc (clusterAggOf (withClusters fit df)) with
        _ | ⟨a, _ | ⟨b, _ | ⟨c, rest⟩⟩⟩
      · rw [hs] at hlab
        cases hlab
      · rw [hs] at hlab
        cases hlab
      · rw [hs] at hlab
        cases hlab
      · rw [hs] at hlab
        injection hlab with hl
        refine ⟨a, b, c, rest, rfl, ?_⟩
        intro r hr hna hnb hnc
        rw [hout2] at hr
        obtain ⟨r0, hr0, rfl⟩ := List.mem_map.mp hr
        show labels.lookup r0.cluster = none
        rw [← hl]
        have b1 : (r0.cluster == a.cluster) = false := beq_eq_false_iff_ne.mpr hna
        have b2 : (r0.cluster == b.cluster) = false := beq_eq_false_iff_ne.mpr hnb
        have b3 : (r0.cluster == c.cluster) = false := beq_eq_false_iff_ne.mpr hnc
        simp [List.lookup, b1, b2, b3]

def fitW3 : List SegRowIn → List ℕ := fun _ => [0, 0]

def w3rows : List SegRowIn := [w2r1, w2r2]

/-- Claim C3 witness: the amended theorem applied to a table that
clusters into a single cluster (count 1 < 3): labeling raises the
out-of-range error. -/
theorem claim3_witness :
    getSegmentLabels (withClusters fitW3 w3rows) = Except.error errIndexLabel := by
  apply (claim3_amended_theorem fitW3 w3rows).1
  norm_num [clusterKeys, withClusters, fitW3, w3rows, addCluster, dropDup,
    dropDupGo, sortLe, insertLe, w2r1, w2r2]

def w3b1 : SegRowIn :=
  { sessions := 1, avg_session_duration := 1, pages_per_session := 1,
    transactions := 1, revenue := 1000 }

def w3b2 : SegRowIn :=
  { sessions := 1, avg_session_duration := 1, pages_per_session := 1,
    transactions := 1, revenue := 800 }

def w3b3 : SegRowIn :=
  { sessions := 1, avg_session_duration := 1, pages_per_session := 1,
    transactions := 1, revenue := 600 }

def w3b4 : SegRowIn :=
  { sessions := 1, avg_session_duration := 1, pages_per_session := 1,
    transactions := 1, revenue := 400 }

def w3brows : List SegRowIn := [w3b1, w3b2, w3b3, w3b4]

def fitW3b : List SegRowIn → List ℕ := fun _ => [0, 1, 2, 3]

def w3bout1 : SegRow :=
  { sessions := 1, avg_session_duration := 1, pages_per_session := 1,
    transactions := 1, revenue := 1000, cluster := 0, segment := some labelHigh }

def w3bout2 : SegRow :=
  { sessions := 1, avg_session_duration := 1, pages_per_session := 1,
    transactions := 1, revenue := 800, cluster := 1, segment := some labelDeal }

def w3bout3 : SegRow :=
  { sessions := 1, avg_session_duration := 1, pages_per_session := 1,
    transactions := 1, revenue := 600, cluster := 2, segment := some labelCasual }

def w3bout4 : SegRow :=
  { sessions := 1, avg_session_duration := 1, pages_per_session := 1,
    transactions := 1, revenue := 400, cluster := 3, segment := none }

def w3bout : List SegRow := [w3bout1, w3bout2, w3bout3, w3bout4]

/-- Claim C3 counterexample: with four distinct clusters (cluster count
4, not 3) the labeling step does not fail at all — `segment_customers`
succeeds and the row of the lowest-revenue cluster silently receives no
label: the claim as stated is false. -/
theorem claim3_counterexample :
    ∃ out, segment_customers fitW3b w3brows = Except.ok out ∧
      ∃ r ∈ out, r.segment = none := by
  refine ⟨w3bout, ?_, ?_⟩
  · norm_num [w3bout, w3bout1, w3bout2, w3bout3, w3bout4, segment_customers,
      getSegmentLabels, sortAggDesc, insertAggDesc, clusterAggOf, clusterKeys,
      clusterMembers, withClusters, fitW3b, w3brows, w3b1, w3b2, w3b3, w3b4,
      addCluster, meanQ, dropDup, dropDupGo, sortLe, insertLe, List.filter_cons,
      List.filter_nil, List.lookup]
    simp
  · refine ⟨w3bout4, ?_, rfl⟩
    exact List.mem_cons_of_mem _ (List.mem_cons_of_mem _
      (List.mem_cons_of_mem _ (List.mem_cons_self _ _)))

/-- Claim C10: `segment_customers` mutates the caller's table in place —
after a successful call the caller's variable denotes the same augmented
table that is returned, which is exactly the input rows with the
`cluster` and `segment` columns added (stripping them recovers the
input) — whereas `clean_campaign_data` and `clean_customer_data` operate
on a copy and leave the caller's table unchanged. -/
theorem claim10_theorem :
    (∀ (k : ℚ) (df : List CampRow), (clean_campaign_data_call k df).callerArg = df) ∧
    (∀ (k ms mr : ℚ) (df : List CustRow),
        (clean_customer_data_call k ms mr df).callerArg = df) ∧
    (∀ (fit : List SegRowIn → List ℕ) (df : List SegRowIn)
        (out : CallResult (List SegRow) (List SegRow)),
        (fit df).length = df.length →
        segment_customers_call fit df = Except.ok out →
        out.callerArg = out.ret ∧ out.ret.map stripSeg = df) := by
  refine ⟨fun _ _ => rfl, fun _ _ _ _ => rfl, ?_⟩
  intro fit df out hfit hout
  unfold segment_customers_call at hout
  cases hseg : segment_customers fit df with
  | error e =>
    rw [hseg] at hout
    cases hout
  | ok res =>
    rw [hseg] at hout
    injection hout with h
    have hout2 : out = { callerArg := res, ret := res } := h.symm
    subst hout2
    refine ⟨rfl, ?_⟩
    show res.map stripSeg = df
    unfold segment_customers at hseg
    cases hlab : getSegmentLabels (withClusters fit df) with
    | error e =>
      rw [hlab] at hseg
      cases hseg
    | ok labels =>
      rw [hlab] at hseg
      injection hseg with h2
      rw [← h2, List.map_map]
      unfold withClusters
      rw [List.map_map]
      have hfst : (df.zip (fit df)).map Prod.fst = df :=
        List.map_fst_zip df (fit df) (le_of_eq hfit.symm)
      calc (df.zip (fit df)).map _ = (df.zip (fit df)).map Prod.fst := by
            apply List.map_congr_left
            intro p _
            rfl
        _ = df := hfst

def w2out1 : SegRow :=
  { sessions := 10, avg_session_duration := 100, pages_per_session := 5,
    transactions := 1, revenue := 500, cluster := 0, segment := some labelDeal }

def w2out2 : SegRow :=
  { sessions := 20, avg_session_duration := 200, pages_per_session := 10,
    transactions := 2, revenue := 1500, cluster := 1, segment := some labelHigh }

def w2out3 : SegRow :=
  { sessions := 30, avg_session_duration := 300, pages_per_session := 15,
    transactions := 3, revenue := 100, cluster := 2, segment := some labelCasual }

def w2out : List SegRow := [w2out1, w2out2, w2out3]

theorem w2_seg_eval : segment_customers fitW2 w2rows = Except.ok w2out := by
  norm_num [w2out, w2out1, w2out2, w2out3, segment_customers, getSegmentLabels,
    sortAggDesc, insertAggDesc, clusterAggOf, clusterKeys, clusterMembers,
    withClusters, fitW2, w2rows, w2r1, w2r2, w2r3, addCluster, meanQ, dropDup,
    dropDupGo, sortLe, insertLe, List.filter_cons, List.filter_nil, List.lookup]
  simp

/-- Claim C10 witness: the theorem applied to concrete calls; the
cleaners leave the caller's tables untouched, and the segmentation call
leaves the caller holding the returned augmented table, whose rows strip
back to the input. -/
theorem claim10_witness :
    (clean_campaign_data_call (3/2) c6rows).callerArg = c6rows ∧
    (clean_customer_data_call (3/2) 0 0 w5rows).callerArg = w5rows ∧
    ({ callerArg := w2out, ret := w2out } :
        CallResult (List SegRow) (List SegRow)).callerArg =
      ({ callerArg := w2out, ret := w2out } :
        CallResult (List SegRow) (List SegRow)).ret ∧
    w2out.map stripSeg = w2rows := by
  have h3 := claim10_theorem.2.2 fitW2 w2rows { callerArg := w2out, ret := w2out }
    (by simp [fitW2, w2rows])
    (by
      unfold segment_customers_call
      rw [w2_seg_eval])
  exact ⟨claim10_theorem.1 (3/2) c6rows, claim10_theorem.2.1 (3/2) 0 0 w5rows,
    h3.1, h3.2⟩

end Marketing
